import Mathlib

/-!
Verification of the pdfcat merge engine against its specification.

The definitions below are a shallow embedding of the Rust sources under
`src/pdfcat/src` (lopdf `Document` values become explicit finite maps,
`&mut` state becomes explicit state passing, fallible code returns
`Except`).  Functions provided by the external `lopdf` object-graph
library (renumbering, page enumeration, compaction) are modelled from
the specification, as marked in their doc comments.
-/

namespace Pdfcat

/-- A PDF object identifier: a pair (object number, generation number),
mirroring lopdf's `ObjectId = (u32, u16)`. -/
abbrev ObjectId := Nat × Nat

/-- A PDF object value, mirroring lopdf's `Object` enum as used by the
merge engine.  The `real` constructor carries no payload: its floating
point value is never inspected by any code under verification. -/
inductive Object : Type where
  | null : Object
  | boolean (b : Bool) : Object
  | integer (i : Int) : Object
  | real : Object
  | string (s : String) : Object
  | name (n : String) : Object
  | array (elems : List Object) : Object
  | dictionary (entries : List (String × Object)) : Object
  | stream (dict : List (String × Object)) (content : List Nat) : Object
  | reference (id : ObjectId) : Object

/-- A PDF dictionary: an insertion-ordered association list from names to
objects, mirroring lopdf's `Dictionary`. -/
abbrev Dict := List (String × Object)

/-- Dictionary lookup (lopdf `Dictionary::get`): the value of the first
entry with the given key. -/
def dictGet : Dict → String → Option Object
  | [], _ => none
  | (k', v) :: rest, k => if k' = k then some v else dictGet rest k

/-- Dictionary update (lopdf `Dictionary::set`): replace the value of an
existing entry in place, or append a new entry. -/
def dictSet : Dict → String → Object → Dict
  | [], k, v => [(k, v)]
  | (k', v') :: rest, k, v =>
      if k' = k then (k, v) :: rest else (k', v') :: dictSet rest k v

/-- Dictionary key-presence test (lopdf `Dictionary::has`). -/
def dictHas : Dict → String → Bool
  | [], _ => false
  | (k', _) :: rest, k => if k' = k then true else dictHas rest k

/-- Dictionary entry removal (lopdf `Dictionary::remove`). -/
def dictRemove : Dict → String → Dict
  | [], _ => []
  | (k', v') :: rest, k =>
      if k' = k then rest else (k', v') :: dictRemove rest k

/-- lopdf `Object::as_reference`: succeeds only on `reference`. -/
def Object.asReference : Object → Option ObjectId
  | .reference id => some id
  | _ => none

/-- lopdf `Object::as_i64`: succeeds only on `integer`. -/
def Object.asI64 : Object → Option Int
  | .integer i => some i
  | _ => none

mutual

/-- Rewrite every identifier occurring in an object (in `reference`
constructors) through `f`.  Used by the renumbering model. -/
def renameObject (f : ObjectId → ObjectId) : Object → Object
  | .null => .null
  | .boolean b => .boolean b
  | .integer i => .integer i
  | .real => .real
  | .string s => .string s
  | .name n => .name n
  | .array xs => .array (renameMany f xs)
  | .dictionary d => .dictionary (renameEntries f d)
  | .stream d c => .stream (renameEntries f d) c
  | .reference id => .reference (f id)

/-- Rewrite identifiers in each element of an object list. -/
def renameMany (f : ObjectId → ObjectId) : List Object → List Object
  | [] => []
  | o :: rest => renameObject f o :: renameMany f rest

/-- Rewrite identifiers in each value of a dictionary. -/
def renameEntries (f : ObjectId → ObjectId) : List (String × Object) → List (String × Object)
  | [] => []
  | (k, v) :: rest => (k, renameObject f v) :: renameEntries f rest

end

/-- A PDF object graph, mirroring the lopdf `Document` fields the merge
engine uses: the object map, the trailer dictionary and the `max_id`
watermark. -/
structure Document where
  objects : List (ObjectId × Object)
  trailer : Dict
  maxId : Nat

/-- Object-map lookup (lopdf `Document::get_object`): the value of the
first entry with the given identifier. -/
def docGet : List (ObjectId × Object) → ObjectId → Option Object
  | [], _ => none
  | (k', v) :: rest, k => if k' = k then some v else docGet rest k

/-- Object-map insertion (`BTreeMap::insert`): replace the value of an
existing entry in place, or append a new entry. -/
def docInsert : List (ObjectId × Object) → ObjectId → Object → List (ObjectId × Object)
  | [], k, v => [(k, v)]
  | (k', v') :: rest, k, v =>
      if k' = k then (k, v) :: rest else (k', v') :: docInsert rest k v

/-- `BTreeMap::extend`: insert every entry of `news` into `base` in
order, overwriting on identifier collision. -/
def extendObjects (base news : List (ObjectId × Object)) : List (ObjectId × Object) :=
  news.foldl (fun acc kv => docInsert acc kv.1 kv.2) base

namespace Document

/-- Lookup an object in the graph. -/
def getObject (doc : Document) (id : ObjectId) : Option Object :=
  docGet doc.objects id

/-- Replace (or insert) one object of the graph. -/
def setObject (doc : Document) (id : ObjectId) (o : Object) : Document :=
  { doc with objects := docInsert doc.objects id o }

/-- The catalog's identifier: the trailer's `Root` entry, which must be
a reference (lopdf `Document::catalog`). -/
def rootId (doc : Document) : Option ObjectId :=
  match dictGet doc.trailer "Root" with
  | some (.reference id) => some id
  | _ => none

/-- The catalog dictionary: the object the trailer's `Root` reference
resolves to, which must be a dictionary (lopdf `Document::catalog`). -/
def catalogDict (doc : Document) : Option Dict :=
  match doc.rootId with
  | some id =>
      match doc.getObject id with
      | some (.dictionary d) => some d
      | _ => none
  | none => none

/-- Modelled from the spec: the object-graph library's
`get_pages(graph) -> ordered mapping page_number -> identifier`
(lopdf `Document::get_pages`), under the spec's assumed flattened
one-level page tree: the catalog's `Pages` reference resolves to a
dictionary whose `Kids` array lists the page references in order.
Page `n` (1-indexed) is element `n - 1` of the returned list. -/
def pageIds (doc : Document) : List ObjectId :=
  match doc.catalogDict with
  | some cat =>
      match dictGet cat "Pages" with
      | some (.reference pid) =>
          match doc.getObject pid with
          | some (.dictionary pd) =>
              match dictGet pd "Kids" with
              | some (.array kids) => kids.filterMap Object.asReference
              | _ => []
          | _ => []
      | _ => []
  | none => []

/-- lopdf `Document::new_object_id`: bump the watermark and return the
fresh identifier (generation 0). -/
def newObjectId (doc : Document) : ObjectId × Document :=
  ((doc.maxId + 1, 0), { doc with maxId := doc.maxId + 1 })

end Document

/-- Lookup of page number `n` (1-indexed) in a page enumeration, the
model of `BTreeMap::get` on the `get_pages` result. -/
def pageLookup (pages : List ObjectId) (n : Nat) : Option ObjectId :=
  match n with
  | 0 => none
  | Nat.succ m => pages.get? m

/-! ## Page range specifications (`src/config.rs`) -/

/-- One comma-separated component of a page range specification:
either a single page or an inclusive span. -/
inductive PageRangeItem : Type where
  | single (p : Nat) : PageRangeItem
  | span (start stop : Nat) : PageRangeItem
deriving DecidableEq

/-- `PageRange`: a parsed page range specification. -/
structure PageRange where
  ranges : List PageRangeItem
deriving DecidableEq

/-- ASCII whitespace test, the whitespace class relevant to
`str::trim` on the inputs at hand. -/
def isSpaceChar (c : Char) : Bool :=
  c == ' ' || c == '\t' || c == '\n' || c == '\r'

/-- Model of Rust `str::trim` on a character list. -/
def trimChars (cs : List Char) : List Char :=
  ((cs.dropWhile isSpaceChar).reverse.dropWhile isSpaceChar).reverse

/-- Accumulator loop for `splitOnChar`. -/
def splitOnCharAux (sep : Char) : List Char → List Char → List (List Char)
  | [], acc => [acc.reverse]
  | c :: rest, acc =>
      if c == sep then acc.reverse :: splitOnCharAux sep rest []
      else splitOnCharAux sep rest (c :: acc)

/-- Model of Rust `str::split(sep)` on a character list: the (possibly
empty) chunks between occurrences of the separator. -/
def splitOnChar (sep : Char) (cs : List Char) : List (List Char) :=
  splitOnCharAux sep cs []

/-- The numeric value of a decimal digit character. -/
def digitVal (c : Char) : Option Nat :=
  if 48 ≤ c.toNat ∧ c.toNat ≤ 57 then some (c.toNat - 48) else none

/-- Decimal interpretation of a digit run; `none` on a non-digit. -/
def parseDigits (cs : List Char) : Option Nat :=
  cs.foldl
    (fun acc c =>
      match acc, digitVal c with
      | some n, some d => some (n * 10 + d)
      | _, _ => none)
    (some 0)

/-- Rust `str::parse::<u32>()`: an optional leading plus sign followed
by a non-empty run of decimal digits, rejecting values outside the
`u32` range. -/
def parseU32 (cs : List Char) : Option Nat :=
  let t := match cs with
    | '+' :: rest => rest
    | _ => cs
  if t = [] then none
  else
    match parseDigits t with
    | some n => if n < 4294967296 then some n else none
    | none => none

/-- One iteration of `PageRange::parse`'s loop: parse a single
comma-separated part.  All of the Rust error cases become `none`. -/
def parsePart (part : List Char) : Option PageRangeItem :=
  let part := trimChars part
  if part.contains '-' then
    match splitOnChar '-' part with
    | [a, b] =>
        match parseU32 (trimChars a), parseU32 (trimChars b) with
        | some start, some stop =>
            if start = 0 ∨ stop = 0 then none
            else if start > stop then none
            else some (.span start stop)
        | _, _ => none
    | _ => none
  else
    match parseU32 part with
    | some p => if p = 0 then none else some (.single p)
    | none => none

/-- `PageRange::parse`: split on commas, parse every part, reject an
empty item list. -/
def PageRange.parse (s : String) : Option PageRange :=
  match (splitOnChar ',' s.data).mapM parsePart with
  | some items => if items = [] then none else some ⟨items⟩
  | none => none

/-- The per-item test inside `PageRange::contains`. -/
def PageRangeItem.containsPage : PageRangeItem → Nat → Bool
  | .single p, page => decide (p = page)
  | .span start stop, page => decide (start ≤ page) && decide (page ≤ stop)

/-- `PageRange::contains`: whether a 1-indexed page number is included. -/
def PageRange.containsPage (pr : PageRange) (page : Nat) : Bool :=
  pr.ranges.any (fun item => item.containsPage page)

/-- The tail loop of `Vec::dedup`: drop elements equal to the
previously kept element `a`. -/
def dedupFrom (a : Nat) : List Nat → List Nat
  | [] => []
  | b :: rest => if a = b then dedupFrom a rest else b :: dedupFrom b rest

/-- `Vec::dedup`: remove consecutive duplicate elements, keeping the
first of each run. -/
def dedupConsecutive : List Nat → List Nat
  | [] => []
  | a :: rest => a :: dedupFrom a rest

/-- `PageRange::to_pages`: all pages of `1..=max_pages` contained in
the range, sorted and deduplicated.  `Vec::sort_unstable` is modelled
by insertion sort: on `Nat` keys every correct sort computes the same
list, so the model is extensionally exact. -/
def PageRange.to_pages (pr : PageRange) (maxPages : Nat) : List Nat :=
  let pages := (List.range' 1 maxPages).filter (fun p => pr.containsPage p)
  dedupConsecutive (pages.insertionSort (· ≤ ·))

/-! ## Errors (`src/error.rs`), restricted to the variants the merge
engine produces -/

/-- The merge-relevant constructors of `PdfCatError`.  String payloads
carry the Rust reason messages; `invalidPageRange` carries the
requested range and the document's total page count. -/
inductive PdfCatError : Type where
  | noFilesToMerge : PdfCatError
  | invalidPageRange (range : PageRange) (totalPages : Nat) : PdfCatError
  | mergeFailed (reason : String) : PdfCatError
  | bookmarkFailed (reason : String) : PdfCatError
  | metadataFailed (reason : String) : PdfCatError
  | loadFailed (path : String) (reason : String) : PdfCatError
deriving DecidableEq

/-! ## Page extraction and rotation (`src/merge/pages.rs`) -/

/-- `config::Rotation`: the rotation configuration values. -/
inductive Rotation : Type where
  | clockwise90 : Rotation
  | rotate180 : Rotation
  | clockwise270 : Rotation
deriving DecidableEq

/-- `pages::PageRotation`. -/
inductive PageRotation : Type where
  | noRotation : PageRotation
  | clockwise90 : PageRotation
  | rotate180 : PageRotation
  | clockwise270 : PageRotation
deriving DecidableEq

/-- `impl From<Rotation> for PageRotation`. -/
def PageRotation.ofRotation : Rotation → PageRotation
  | .clockwise90 => .clockwise90
  | .rotate180 => .rotate180
  | .clockwise270 => .clockwise270

/-- `PageRotation::as_degrees` (an `i64` in the source). -/
def PageRotation.as_degrees : PageRotation → Int
  | .noRotation => 0
  | .clockwise90 => 90
  | .rotate180 => 180
  | .clockwise270 => 270

namespace PageExtractor

/-- `PageExtractor::update_page_tree`: replace the Pages dictionary's
`Kids` array wholesale with references to `page_ids` and set `Count`
to their number. -/
def update_page_tree (doc : Document) (page_ids : List ObjectId) :
    Except PdfCatError Document :=
  match doc.catalogDict with
  | none => .error (.mergeFailed "Failed to get catalog")
  | some cat =>
      match dictGet cat "Pages" with
      | some (.reference pages_id) =>
          match doc.getObject pages_id with
          | some (.dictionary dict) =>
              let kids := page_ids.map Object.reference
              let dict := dictSet dict "Kids" (.array kids)
              let dict := dictSet dict "Count" (.integer (page_ids.length : Int))
              .ok (doc.setObject pages_id (.dictionary dict))
          | some _ => .error (.mergeFailed "Pages object is not a dictionary")
          | none => .error (.mergeFailed "Failed to get pages object")
      | _ => .error (.mergeFailed "Failed to get pages reference")

/-- `PageExtractor::extract_pages`: compute the requested page numbers,
look up their identifiers and rewrite the page tree of a copy of the
document.  The original code's path payload of `InvalidPageRange` is
always the constant string "document" and is omitted here. -/
def extract_pages (doc : Document) (page_range : PageRange) :
    Except PdfCatError Document :=
  let all_pages := doc.pageIds
  let max_pages := all_pages.length
  let requested_pages := page_range.to_pages max_pages
  if requested_pages = [] then .error (.mergeFailed "No pages in range")
  else if requested_pages.any (fun page_num => decide (page_num > max_pages)) then
    .error (.invalidPageRange page_range max_pages)
  else
    let page_ids := requested_pages.filterMap (fun page_num => pageLookup all_pages page_num)
    if page_ids = [] then .error (.mergeFailed "Failed to extract pages")
    else update_page_tree doc page_ids

/-- The `Rotate` value a page dictionary currently carries, as read by
`rotate_page`: `dict.get(b"Rotate").and_then(as_i64).unwrap_or(0)`. -/
def rotateCurrent (dict : Dict) : Int :=
  match (dictGet dict "Rotate").bind Object.asI64 with
  | some r => r
  | none => 0

/-- The body of `PageExtractor::rotate_page` acting on the page
dictionary: read the existing `Rotate` integer (0 when missing or not
an integer), add the delta and truncate with Rust's `%` operator
(truncated remainder, `Int.tmod`). -/
def rotatePageDict (dict : Dict) (degrees : Int) : Dict :=
  let new_rotation := Int.tmod (rotateCurrent dict + degrees) 360
  dictSet dict "Rotate" (.integer new_rotation)

/-- `PageExtractor::rotate_page`: rotate a single page object. -/
def rotate_page (doc : Document) (page_id : ObjectId) (degrees : Int) :
    Except PdfCatError Document :=
  match doc.getObject page_id with
  | some (.dictionary dict) =>
      .ok (doc.setObject page_id (.dictionary (rotatePageDict dict degrees)))
  | some _ => .error (.mergeFailed "Page object is not a dictionary")
  | none => .error (.mergeFailed "Failed to get page")

/-- `PageExtractor::rotate_all_pages`: apply the rotation delta to
every page of the document in page order. -/
def rotate_all_pages (doc : Document) (rotation : Rotation) :
    Except PdfCatError Document :=
  let page_rotation := PageRotation.ofRotation rotation
  let rotation_degrees := page_rotation.as_degrees
  if rotation_degrees = 0 then .ok doc
  else
    let page_ids := doc.pageIds
    page_ids.foldlM (fun d pid => rotate_page d pid rotation_degrees) doc

/-- `PageExtractor::page_count`. -/
def page_count (doc : Document) : Nat :=
  doc.pageIds.length

end PageExtractor

/-! ## Page-tree splice (`src/merge/merger.rs`) -/

namespace Merger

/-- `Merger::add_pages_to_tree`: append references to `page_ids` to
the base Pages dictionary's `Kids` array and bump `Count` by their
number, a missing or non-integer old `Count` counting as 0. -/
def add_pages_to_tree (merged : Document) (page_ids : List ObjectId) :
    Except PdfCatError Document :=
  match merged.catalogDict with
  | none => .error (.mergeFailed "Failed to get catalog")
  | some cat =>
      match dictGet cat "Pages" with
      | some (.reference pages_id) =>
          match merged.getObject pages_id with
          | some (.dictionary dict) =>
              match dictGet dict "Kids" with
              | some (.array kids_array) =>
                  let kids_array := kids_array ++ page_ids.map Object.reference
                  let dict := dictSet dict "Kids" (.array kids_array)
                  let current_count :=
                    match (dictGet dict "Count").bind Object.asI64 with
                    | some c => c
                    | none => 0
                  let new_count := current_count + (page_ids.length : Int)
                  let dict := dictSet dict "Count" (.integer new_count)
                  .ok (merged.setObject pages_id (.dictionary dict))
              | some _ => .error (.mergeFailed "Kids is not an array")
              | none => .error (.mergeFailed "Pages dictionary missing Kids array")
          | some _ => .error (.mergeFailed "Pages object is not a dictionary")
          | none => .error (.mergeFailed "Failed to get pages object")
      | _ => .error (.mergeFailed "Failed to get pages reference")

end Merger

/-! ## Renumbering and compaction (external `lopdf` library calls,
modelled from the spec) -/

/-- First-occurrence index of an identifier in a key list. -/
def idxOfKey : List ObjectId → ObjectId → Option Nat
  | [], _ => none
  | k :: rest, id => if k = id then some 0 else (idxOfKey rest id).map (· + 1)

/-- The identifier substitution performed by renumbering: the key at
position `k` of the object map becomes `(starting_at + k, 0)`;
identifiers not present in the map are left unchanged. -/
def renumberFun (keys : List ObjectId) (startingAt : Nat) : ObjectId → ObjectId :=
  fun id =>
    match idxOfKey keys id with
    | some i => (startingAt + i, 0)
    | none => id

/-- Modelled from the spec: the Renumbering Unit (§4.1, lopdf
`Document::renumber_objects_with`, an external library call).  Every
identifier of the graph is replaced by `starting_at + k` (generation
0), `k` following the stable order of the object map, and every
reference in every object and in the trailer is rewritten to match;
afterwards `max_id = starting_at + count - 1`. -/
def Document.renumberWith (doc : Document) (startingAt : Nat) : Document :=
  let keys := doc.objects.map Prod.fst
  let f := renumberFun keys startingAt
  { objects := doc.objects.map (fun kv => (f kv.1, renameObject f kv.2)),
    trailer := renameEntries f doc.trailer,
    maxId := startingAt + doc.objects.length - 1 }

/-- Modelled from the spec: the final canonical renumbering (§4.7 step
8, lopdf `Document::renumber_objects`), which renumbers from 1. -/
def Document.renumber (doc : Document) : Document :=
  doc.renumberWith 1

/-- Modelled from the spec: the stream-compaction pass (lopdf
`Document::compress`, an external library call).  It re-encodes
stream payload bytes only; payload encodings are outside this
embedding, so the pass is the identity on the object graph. -/
def Document.compress (doc : Document) : Document :=
  doc

mutual

/-- All identifiers referenced directly by an object. -/
def refsInObject : Object → List ObjectId
  | .array xs => refsInMany xs
  | .dictionary d => refsInEntries d
  | .stream d _ => refsInEntries d
  | .reference id => [id]
  | _ => []

/-- All identifiers referenced by elements of an object list. -/
def refsInMany : List Object → List ObjectId
  | [] => []
  | o :: rest => refsInObject o ++ refsInMany rest

/-- All identifiers referenced by values of a dictionary. -/
def refsInEntries : List (String × Object) → List ObjectId
  | [] => []
  | (_, v) :: rest => refsInObject v ++ refsInEntries rest

end

/-- One expansion step of the reachable-identifier set. -/
def reachStep (objs : List (ObjectId × Object)) (seen : List ObjectId) : List ObjectId :=
  let new := (seen.map (fun id =>
    match docGet objs id with
    | some o => refsInObject o
    | none => [])).flatten
  seen ++ new.filter (fun id => ¬ seen.contains id)

/-- Iterate `reachStep` a bounded number of times. -/
def iterateReach (objs : List (ObjectId × Object)) : Nat → List ObjectId → List ObjectId
  | 0, seen => seen
  | n + 1, seen => iterateReach objs n (reachStep objs seen)

/-- Modelled from the spec: the unreachable-object pruning pass (§4.7
step 7 at level Maximum, lopdf `Document::prune_objects`): keep only
objects reachable from the trailer's references. -/
def Document.pruneUnreachable (doc : Document) : Document :=
  let roots := refsInEntries doc.trailer
  let reachable := iterateReach doc.objects doc.objects.length roots
  { doc with objects := doc.objects.filter (fun kv => reachable.contains kv.1) }

/-! ## Bookmarks (`src/merge/bookmarks.rs`) -/

/-- Model of `Path::file_name().and_then(to_str).unwrap_or("Unknown")`
for the plain file paths the engine passes: the final component after
the last '/' separator. -/
def fileNameOf (path : String) : String :=
  match (splitOnChar '/' path.data).getLast? with
  | some cs => if cs = [] then "Unknown" else String.mk cs
  | none => "Unknown"

/-- The item-collection loop of
`BookmarkManager::add_bookmarks_for_files`: file `file_idx` targets
the page at index `file_idx * pages_per_file`, and the loop breaks at
the first file whose target index is out of range. -/
def collectOutlineItems (pages : List ObjectId) (pages_per_file : Nat) :
    Nat → List String → List (String × ObjectId)
  | _, [] => []
  | file_idx, path :: restPaths =>
      let page_idx := file_idx * pages_per_file
      match pages.get? page_idx with
      | some page_id =>
          (fileNameOf path, page_id) ::
            collectOutlineItems pages pages_per_file (file_idx + 1) restPaths
      | none => []

/-- The outline-item dictionary built by
`BookmarkManager::create_outline_structure` before linking: Title,
Parent (the outline root) and the destination array
`[pageRef, XYZ, null, null, null]`. -/
def itemDictBase (title : String) (outline_id page_id : ObjectId) : Dict :=
  [("Title", .string title),
   ("Parent", .reference outline_id),
   ("Dest", .array [.reference page_id, .name "XYZ", .null, .null, .null])]

/-- The item-allocation loop of `create_outline_structure`: allocate a
fresh identifier per item and insert its dictionary; returns the new
document and the item identifiers in input order. -/
def insertOutlineItems (outline_id : ObjectId) :
    Document → List (String × ObjectId) → Document × List ObjectId
  | doc, [] => (doc, [])
  | doc, (title, page_id) :: rest =>
      let (item_id, doc) := doc.newObjectId
      let doc := doc.setObject item_id (.dictionary (itemDictBase title outline_id page_id))
      let (doc, ids) := insertOutlineItems outline_id doc rest
      (doc, item_id :: ids)

/-- The dictionary transformation of one linking iteration: set `Prev`
on item `i > 0` and `Next` on item `i < len - 1`. -/
def linkedDict (item_ids : List ObjectId) (i : Nat) (dict : Dict) : Dict :=
  let dict :=
    if i > 0 then dictSet dict "Prev" (.reference (item_ids.getD (i - 1) (0, 0))) else dict
  if i < item_ids.length - 1 then
    dictSet dict "Next" (.reference (item_ids.getD (i + 1) (0, 0)))
  else dict

/-- One iteration of the Prev/Next linking loop, skipping silently
when the object is not a dictionary. -/
def linkOutlineItem (item_ids : List ObjectId) (doc : Document) (i : Nat) : Document :=
  let id := item_ids.getD i (0, 0)
  match doc.getObject id with
  | some (.dictionary dict) => doc.setObject id (.dictionary (linkedDict item_ids i dict))
  | _ => doc

/-- The Prev/Next linking loop over all item indices. -/
def linkOutlineItems (doc : Document) (item_ids : List ObjectId) : Document :=
  (List.range item_ids.length).foldl (linkOutlineItem item_ids) doc

/-- The outline root dictionary built by `create_outline_structure`:
Type and Count, plus First/Last when any items exist. -/
def outlineDictOf (item_ids : List ObjectId) : Dict :=
  let d : Dict := [("Type", .name "Outlines"), ("Count", .integer (item_ids.length : Int))]
  if item_ids.isEmpty then d
  else
    d ++ [("First", Object.reference (item_ids.headD (0, 0))),
          ("Last", Object.reference (item_ids.getLastD (0, 0)))]

namespace BookmarkManager

/-- `BookmarkManager::create_outline_structure`. -/
def create_outline_structure (doc : Document) (items : List (String × ObjectId)) :
    Except PdfCatError Document :=
  let (outline_id, doc) := doc.newObjectId
  let (doc, item_ids) := insertOutlineItems outline_id doc items
  let doc := linkOutlineItems doc item_ids
  let doc := doc.setObject outline_id (.dictionary (outlineDictOf item_ids))
  match doc.rootId with
  | some rid =>
      match doc.getObject rid with
      | some (.dictionary cat) =>
          .ok (doc.setObject rid (.dictionary (dictSet cat "Outlines" (.reference outline_id))))
      | _ => .error (.bookmarkFailed "Failed to get catalog")
  | none => .error (.bookmarkFailed "Failed to get catalog")

/-- `BookmarkManager::add_bookmarks_for_files`. -/
def add_bookmarks_for_files (doc : Document) (file_paths : List String) :
    Except PdfCatError Document :=
  if file_paths.isEmpty then .ok doc
  else
    let pages := doc.pageIds
    if pages.isEmpty then .ok doc
    else
      let pages_per_file :=
        if file_paths.length > 1 then pages.length / file_paths.length else pages.length
      let outline_items := collectOutlineItems pages pages_per_file 0 file_paths
      if outline_items.isEmpty then .ok doc
      else create_outline_structure doc outline_items

/-- `BookmarkManager::has_bookmarks`. -/
def has_bookmarks (doc : Document) : Bool :=
  match doc.catalogDict with
  | some cat => dictHas cat "Outlines"
  | none => false

/-- `BookmarkManager::remove_bookmarks`. -/
def remove_bookmarks (doc : Document) : Except PdfCatError Document :=
  match doc.rootId with
  | some rid =>
      match doc.getObject rid with
      | some (.dictionary cat) =>
          .ok (doc.setObject rid (.dictionary (dictRemove cat "Outlines")))
      | _ => .ok doc
  | none => .ok doc

end BookmarkManager

/-! ## Metadata (`src/config.rs`, `src/merge/metadata.rs`) -/

/-- `config::Metadata`: the user-settable Info fields. -/
structure Metadata where
  title : Option String
  author : Option String
  subject : Option String
  keywords : Option String
deriving DecidableEq

/-- `Metadata::is_empty`. -/
def Metadata.isEmpty (m : Metadata) : Bool :=
  m.title.isNone && m.author.isNone && m.subject.isNone && m.keywords.isNone

/-- `MetadataManager::set_metadata`.  The `now` argument is the PDF
date string `format_pdf_date(SystemTime::now())` observed from the
system clock, passed as an explicit input in this embedding. -/
def MetadataManager.set_metadata (doc : Document) (metadata : Metadata) (now : String) :
    Except PdfCatError Document :=
  if metadata.isEmpty then .ok doc
  else
    let (info_id, doc) :=
      match dictGet doc.trailer "Info" with
      | some (.reference r) => (r, doc)
      | _ =>
          let (nid, d) := doc.newObjectId
          (nid, { d with trailer := dictSet d.trailer "Info" (.reference nid) })
    let (info_dict, doc) :=
      match doc.getObject info_id with
      | some (.dictionary d) => (d, doc)
      | _ => (([] : Dict), doc.setObject info_id (.dictionary []))
    let info_dict :=
      match metadata.title with
      | some t => dictSet info_dict "Title" (.string t)
      | none => info_dict
    let info_dict :=
      match metadata.author with
      | some a => dictSet info_dict "Author" (.string a)
      | none => info_dict
    let info_dict :=
      match metadata.subject with
      | some s => dictSet info_dict "Subject" (.string s)
      | none => info_dict
    let info_dict :=
      match metadata.keywords with
      | some k => dictSet info_dict "Keywords" (.string k)
      | none => info_dict
    let info_dict := dictSet info_dict "Creator" (.string "pdfcat")
    let info_dict := dictSet info_dict "Producer" (.string "pdfcat")
    let info_dict := dictSet info_dict "CreationDate" (.string now)
    let info_dict := dictSet info_dict "ModDate" (.string now)
    .ok (doc.setObject info_id (.dictionary info_dict))

/-! ## Configuration and orchestration (`src/config.rs`,
`src/merge/merger.rs`) -/

/-- `config::CompressionLevel`. -/
inductive CompressionLevel : Type where
  | levelNone : CompressionLevel
  | standard : CompressionLevel
  | maximum : CompressionLevel
deriving DecidableEq

/-- The merge-relevant fields of `config::Config`.  Input paths,
output path and the CLI presentation flags drive only the I/O shell,
which is outside the merge engine. -/
structure Config where
  bookmarks : Bool
  compression : CompressionLevel
  metadata : Metadata
  continue_on_error : Bool
  page_range : Option PageRange
  rotation : Option Rotation

/-- `io::reader::LoadedPdf`, without the wall-clock `load_time`
field, which the merge algorithms never read. -/
structure LoadedPdf where
  document : Document
  path : String
  page_count : Nat
  file_size : Nat

/-- `merger::MergeStatistics`, without the wall-clock timing fields,
which are not statable in a pure embedding. -/
structure MergeStatistics where
  files_merged : Nat
  total_pages : Nat
  input_size : Nat
  bookmarks_added : Nat
  compressed : Bool

/-- `merger::MergeResult`. -/
structure MergeResult where
  document : Document
  statistics : MergeStatistics
  merged_files : List String

namespace Merger

/-- The extract-then-rotate prologue applied both to the base document
and to each absorbed document inside `Merger::merge_documents`. -/
def applyPageOps (config : Config) (doc : Document) : Except PdfCatError Document := do
  let doc ←
    match config.page_range with
    | some page_range => PageExtractor.extract_pages doc page_range
    | none => pure doc
  match config.rotation with
  | some rotation => PageExtractor.rotate_all_pages doc rotation
  | none => pure doc

/-- One iteration of the absorb loop of `Merger::merge_documents`:
extract/rotate the source, renumber it above the running watermark,
pour its objects into the base and splice its pages. -/
def absorbOne (config : Config) (st : Document × Nat) (loaded : LoadedPdf) :
    Except PdfCatError (Document × Nat) := do
  let (merged, max_id) := st
  let doc ← applyPageOps config loaded.document
  let doc := doc.renumberWith (max_id + 1)
  let max_id := doc.maxId
  let doc_pages := doc.pageIds
  let merged := { merged with objects := extendObjects merged.objects doc.objects }
  let merged ← add_pages_to_tree merged doc_pages
  pure (merged, max_id)

/-- `Merger::merge_documents`. -/
def merge_documents (loaded_pdfs : List LoadedPdf) (config : Config) (now : String) :
    Except PdfCatError Document :=
  match loaded_pdfs with
  | [] => .error .noFilesToMerge
  | first :: rest => do
      let base ← applyPageOps config first.document
      let (merged, _) ← rest.foldlM (absorbOne config) (base, first.document.maxId)
      let merged ←
        if config.bookmarks then
          BookmarkManager.add_bookmarks_for_files merged (loaded_pdfs.map (·.path))
        else pure merged
      let merged ←
        if config.metadata.isEmpty then pure merged
        else MetadataManager.set_metadata merged config.metadata now
      let merged :=
        match config.compression with
        | .levelNone => merged
        | .standard => merged.compress
        | .maximum => merged.compress.pruneUnreachable
      pure merged.renumber

/-- The load-result separation loop of `Merger::merge`: keep
successful loads, and on a failure either skip it (continue-on-error)
or abort with the first error. -/
def collectLoaded (continue_on_error : Bool) :
    List (Except PdfCatError LoadedPdf) → Except PdfCatError (List LoadedPdf)
  | [] => .ok []
  | .ok loaded :: rest =>
      match collectLoaded continue_on_error rest with
      | .ok ls => .ok (loaded :: ls)
      | .error e => .error e
  | .error e :: rest =>
      if continue_on_error then collectLoaded continue_on_error rest
      else .error e

/-- `Merger::merge`, starting from the per-path load results (the
batch loader that produces them is modelled separately). -/
def merge (load_results : List (Except PdfCatError LoadedPdf)) (config : Config) (now : String) :
    Except PdfCatError MergeResult := do
  let loaded_pdfs ← collectLoaded config.continue_on_error load_results
  if loaded_pdfs.isEmpty then .error .noFilesToMerge
  else do
    let document ← merge_documents loaded_pdfs config now
    let statistics : MergeStatistics :=
      { files_merged := loaded_pdfs.length,
        total_pages := document.pageIds.length,
        input_size := (loaded_pdfs.map (·.file_size)).sum,
        bookmarks_added := 0,
        compressed := decide (config.compression ≠ CompressionLevel.levelNone) }
    .ok { document := document,
          statistics := statistics,
          merged_files := loaded_pdfs.map (·.path) }

end Merger

/-! ## Batch loading (`src/io/reader.rs`) -/

/-- Modelled from the spec: `futures` `buffer_unordered(workers)`
followed by `collect` yields the task outputs in completion order.  A
completion schedule lists the input positions in the order the tasks
finish; the collected output follows that order. -/
def bufferUnordered {α : Type} (tasks : List α) (schedule : List Nat) : List α :=
  schedule.filterMap (fun i => tasks.get? i)

namespace PdfReader

/-- `PdfReader::load_sequential`: load each path in input order.  The
per-path load (file I/O) is abstracted as the function `load`. -/
def load_sequential {α : Type} (load : String → α) (paths : List String) : List α :=
  paths.map load

/-- `PdfReader::load_parallel`: run the per-path load tasks through
`buffer_unordered` and collect the results as they complete.  The
`workers` bound and the completion `schedule` come from the runtime
environment. -/
def load_parallel {α : Type} (load : String → α) (paths : List String)
    (workers : Nat) (schedule : List Nat) : List α :=
  let _ := workers
  bufferUnordered (paths.map load) schedule

/-- `PdfReader::load_all`: strict sequential loading for batches of at
most 3 paths, `load_parallel` otherwise. -/
def load_all {α : Type} (load : String → α) (paths : List String)
    (max_workers : Nat) (schedule : List Nat) : List α :=
  if paths.length ≤ 3 then load_sequential load paths
  else load_parallel load paths max_workers schedule

/-- `PdfReader::load_with_progress`: the indexed variant that tags
each task with its position and sorts the collected results by that
tag before returning. -/
def load_with_progress {α : Type} (load : String → α) (paths : List String)
    (workers : Nat) (schedule : List Nat) : List (Nat × α) :=
  let _ := workers
  let indexed := bufferUnordered (paths.map load).enum schedule
  indexed.mergeSort (fun a b => decide (a.1 ≤ b.1))

end PdfReader

/-! ## Concrete fixture documents -/

/-- A minimal flat `n`-page document mirroring the repository tests'
`create_multi_page_pdf` fixture: catalog `(1,0)`, Pages root `(2,0)`,
page objects `(3,0)` through `(n+2,0)`. -/
def sampleDoc (n : Nat) : Document :=
  let pageIdList := (List.range' 3 n).map (fun i => ((i, 0) : ObjectId))
  { objects :=
      [ ((1, 0), Object.dictionary [("Type", .name "Catalog"), ("Pages", .reference (2, 0))]),
        ((2, 0), Object.dictionary
          [("Type", .name "Pages"),
           ("Kids", .array (pageIdList.map Object.reference)),
           ("Count", .integer (n : Int))]) ] ++
      pageIdList.map
        (fun pid => (pid, Object.dictionary [("Type", .name "Page"), ("Parent", .reference (2, 0))])),
    trailer := [("Root", .reference (1, 0))],
    maxId := n + 2 }

/-- A document whose Pages dictionary has a one-element Kids array but
no Count entry: catalog `(1,0)`, Pages root `(2,0)`, page `(3,0)`. -/
def noCountDoc : Document :=
  { objects :=
      [ ((1, 0), Object.dictionary [("Type", .name "Catalog"), ("Pages", .reference (2, 0))]),
        ((2, 0), Object.dictionary
          [("Type", .name "Pages"), ("Kids", .array [.reference (3, 0)])]),
        ((3, 0), Object.dictionary [("Type", .name "Page"), ("Parent", .reference (2, 0))]) ],
    trailer := [("Root", .reference (1, 0))],
    maxId := 3 }

/-- A single-page document whose page carries the (pathological)
existing rotation value `Rotate -450`. -/
def negRotDoc : Document :=
  { objects :=
      [ ((1, 0), Object.dictionary [("Type", .name "Catalog"), ("Pages", .reference (2, 0))]),
        ((2, 0), Object.dictionary
          [("Type", .name "Pages"), ("Kids", .array [.reference (3, 0)]),
           ("Count", .integer 1)]),
        ((3, 0), Object.dictionary
          [("Type", .name "Page"), ("Parent", .reference (2, 0)),
           ("Rotate", .integer (-450))]) ],
    trailer := [("Root", .reference (1, 0))],
    maxId := 3 }

/-- The all-defaults merge configuration: no bookmarks, no
compression, empty metadata, no page range, no rotation. -/
def plainConfig : Config :=
  { bookmarks := false,
    compression := .levelNone,
    metadata := ⟨none, none, none, none⟩,
    continue_on_error := false,
    page_range := none,
    rotation := none }

/-- The all-defaults configuration with continue-on-error enabled. -/
def coConfig : Config :=
  { plainConfig with continue_on_error := true }

/-- The all-defaults configuration with bookmarks enabled. -/
def bmConfig : Config :=
  { plainConfig with bookmarks := true }

/-- The named entry of the dictionary stored at `id`, if any. -/
def objDictGet (doc : Document) (id : ObjectId) (k : String) : Option Object :=
  match doc.getObject id with
  | some (.dictionary d) => dictGet d k
  | _ => none

/-- A `LoadedPdf` wrapping an `n`-page fixture document. -/
def sampleLoaded (n : Nat) (p : String) : LoadedPdf :=
  { document := sampleDoc n, path := p, page_count := n, file_size := 100 }

/-! ## Structural well-formedness -/

/-- The catalog→Pages→Kids resolution chain: the raw lookups that both
the splicer and the extractor perform. -/
structure PageChain (doc : Document) (rid pid : ObjectId) (cat pd : Dict)
    (kids : List Object) : Prop where
  root_ref : dictGet doc.trailer "Root" = some (.reference rid)
  cat_dict : doc.getObject rid = some (.dictionary cat)
  pages_ref : dictGet cat "Pages" = some (.reference pid)
  pages_dict : doc.getObject pid = some (.dictionary pd)
  kids_arr : dictGet pd "Kids" = some (.array kids)

/-- Executable form of the resolution chain: the catalog id, Pages id,
catalog dictionary, Pages dictionary and Kids array, when they all
resolve. -/
def chainData (doc : Document) : Option (ObjectId × ObjectId × Dict × Dict × List Object) :=
  match dictGet doc.trailer "Root" with
  | some (.reference rid) =>
      match doc.getObject rid with
      | some (.dictionary cat) =>
          match dictGet cat "Pages" with
          | some (.reference pid) =>
              match doc.getObject pid with
              | some (.dictionary pd) =>
                  match dictGet pd "Kids" with
                  | some (.array kids) => some (rid, pid, cat, pd, kids)
                  | _ => none
              | _ => none
          | _ => none
      | _ => none
  | _ => none

/-- The Pages dictionary's `Count` entry as an integer, through the
resolution chain. -/
def docCount (doc : Document) : Option Int :=
  match chainData doc with
  | some (_, _, _, pd, _) => (dictGet pd "Count").bind Object.asI64
  | none => none

/-- The Kids array through the resolution chain. -/
def kidsList (doc : Document) : Option (List Object) :=
  match chainData doc with
  | some (_, _, _, _, kids) => some kids
  | none => none

/-- Whether every Kids entry is a reference. -/
def allRefs (kids : List Object) : Bool :=
  kids.all (fun o => (Object.asReference o).isSome)

/-- The page-tree invariant of the specification: `Count` equals the
length of the Kids array. -/
def countMatchesKids (doc : Document) : Prop :=
  ∃ kids, kidsList doc = some kids ∧ docCount doc = some (kids.length : Int)

/-- Structural well-formedness of a loaded document as the merge
pipeline relies on it: distinct object keys, keys bounded by the
`max_id` watermark, a resolving catalog→Pages→Kids chain with the
catalog and Pages root stored at distinct identifiers, and a Kids
array containing only references. -/
def wfDoc (doc : Document) : Bool :=
  decide (doc.objects.map Prod.fst).Nodup &&
  (doc.objects.map Prod.fst).all (fun k => decide (k.1 ≤ doc.maxId)) &&
  (match chainData doc with
   | some (rid, pid, _, _, kids) => decide (rid ≠ pid) && allRefs kids
   | none => false)

/-- The loop invariant of the absorb loop: the accumulating merged
graph has distinct keys bounded by the running watermark `w` and a
resolving page chain with reference-only Kids. -/
structure MergeInv (doc : Document) (w : Nat) : Prop where
  nodup : (doc.objects.map Prod.fst).Nodup
  bounded : ∀ k ∈ doc.objects.map Prod.fst, k.1 ≤ w
  chain : ∃ rid pid cat pd kids,
    PageChain doc rid pid cat pd kids ∧ rid ≠ pid ∧ allRefs kids = true

/-- The outline structure the specification describes, on the result
document `doc'` of adding bookmarks to `doc` for the item list
`items`: distinct item identifiers; every item carrying Title, Parent
(the outline root) and the 5-element destination array; Prev/Next
links forming the doubly-linked chain in input order (which is acyclic
since successor indices strictly increase); the root carrying Count
and the First/Last chain ends; and the catalog's Outlines entry
referencing the root. -/
def OutlineStructureOk (doc doc' : Document) (items : List (String × ObjectId)) : Prop :=
  let n := items.length
  let oid : ObjectId := (doc.maxId + 1, 0)
  let itemId : Nat → ObjectId := fun j => (doc.maxId + 2 + j, 0)
  (∀ i j, i < n → j < n → itemId i = itemId j → i = j) ∧
  (∀ j, j < n → ∃ dj, doc'.getObject (itemId j) = some (.dictionary dj) ∧
    dictGet dj "Title" = some (.string (items.getD j ("", (0, 0))).1) ∧
    dictGet dj "Parent" = some (.reference oid) ∧
    dictGet dj "Dest" = some (.array
      [.reference (items.getD j ("", (0, 0))).2, .name "XYZ", .null, .null, .null]) ∧
    (j = 0 → dictGet dj "Prev" = none) ∧
    (0 < j → dictGet dj "Prev" = some (.reference (itemId (j - 1)))) ∧
    (j = n - 1 → dictGet dj "Next" = none) ∧
    (j < n - 1 → dictGet dj "Next" = some (.reference (itemId (j + 1))))) ∧
  (∃ rd, doc'.getObject oid = some (.dictionary rd) ∧
    dictGet rd "Count" = some (.integer (n : Int)) ∧
    dictGet rd "First" = some (.reference (itemId 0)) ∧
    dictGet rd "Last" = some (.reference (itemId (n - 1)))) ∧
  (∃ cat', doc'.catalogDict = some cat' ∧
    dictGet cat' "Outlines" = some (.reference oid))

/-! ## Basic lemmas about the map operations -/

theorem ok_bind {ε α β : Type} (a : α) (f : α → Except ε β) :
    (Except.ok a >>= f) = f a := rfl

theorem error_bind {ε α β : Type} (e : ε) (f : α → Except ε β) :
    ((Except.error e : Except ε α) >>= f) = Except.error e := rfl

theorem dictGet_dictSet_self (d : Dict) (k : String) (v : Object) :
    dictGet (dictSet d k v) k = some v := by
  induction d with
  | nil => simp [dictSet, dictGet]
  | cons kv rest ih =>
      obtain ⟨k', v'⟩ := kv
      by_cases h : k' = k
      · simp [dictSet, dictGet, h]
      · simp [dictSet, dictGet, h, ih]

theorem dictGet_dictSet_ne {k k' : String} (h : k ≠ k') (d : Dict) (v : Object) :
    dictGet (dictSet d k v) k' = dictGet d k' := by
  induction d with
  | nil => simp [dictSet, dictGet, h]
  | cons kv rest ih =>
      obtain ⟨k'', v'⟩ := kv
      by_cases h2 : k'' = k
      · subst h2; simp [dictSet, dictGet, h]
      · by_cases h3 : k'' = k' <;> simp [dictSet, dictGet, h2, h3, Ne.symm h, ih]

theorem docGet_docInsert_self (l : List (ObjectId × Object)) (k : ObjectId) (v : Object) :
    docGet (docInsert l k v) k = some v := by
  induction l with
  | nil => simp [docInsert, docGet]
  | cons kv rest ih =>
      obtain ⟨k', v'⟩ := kv
      by_cases h : k' = k
      · simp [docInsert, docGet, h]
      · simp [docInsert, docGet, h, ih]

theorem docGet_docInsert_ne {k k' : ObjectId} (h : k ≠ k')
    (l : List (ObjectId × Object)) (v : Object) :
    docGet (docInsert l k v) k' = docGet l k' := by
  induction l with
  | nil => simp [docInsert, docGet, h]
  | cons kv rest ih =>
      obtain ⟨k'', v'⟩ := kv
      by_cases h2 : k'' = k
      · subst h2; simp [docInsert, docGet, h]
      · by_cases h3 : k'' = k' <;> simp [docInsert, docGet, h2, h3, Ne.symm h, ih]

theorem docGet_mem_keys {l : List (ObjectId × Object)} {k : ObjectId} {v : Object}
    (h : docGet l k = some v) : k ∈ l.map Prod.fst := by
  induction l with
  | nil => simp [docGet] at h
  | cons kv rest ih =>
      obtain ⟨k', v'⟩ := kv
      by_cases h2 : k' = k
      · subst h2; simp
      · simp [docGet, h2] at h
        simpa using Or.inr (ih h)

theorem docGet_append_of_some {l1 l2 : List (ObjectId × Object)} {k : ObjectId} {v : Object}
    (h : docGet l1 k = some v) : docGet (l1 ++ l2) k = some v := by
  induction l1 with
  | nil => simp [docGet] at h
  | cons kv rest ih =>
      obtain ⟨k', v'⟩ := kv
      by_cases h2 : k' = k
      · subst h2; simpa [docGet] using h
      · simp [docGet, h2] at h ⊢; exact ih h

theorem keys_docInsert_of_mem {l : List (ObjectId × Object)} {k : ObjectId}
    (h : k ∈ l.map Prod.fst) (v : Object) :
    (docInsert l k v).map Prod.fst = l.map Prod.fst := by
  induction l with
  | nil => simp at h
  | cons kv rest ih =>
      obtain ⟨k', v'⟩ := kv
      by_cases h2 : k' = k
      · subst h2; simp [docInsert]
      · have hmem : k ∈ rest.map Prod.fst := by
          simp only [List.map_cons] at h
          rcases List.mem_cons.mp h with h3 | h3
          · exact absurd h3.symm h2
          · exact h3
        simp [docInsert, h2, ih hmem]

theorem docInsert_of_notMem {l : List (ObjectId × Object)} {k : ObjectId}
    (h : k ∉ l.map Prod.fst) (v : Object) : docInsert l k v = l ++ [(k, v)] := by
  induction l with
  | nil => simp [docInsert]
  | cons kv rest ih =>
      obtain ⟨k', v'⟩ := kv
      have h1 : k' ≠ k := fun hh => h (by simp [hh])
      have h2 : k ∉ rest.map Prod.fst := fun hh => h (by simp [hh])
      simp [docInsert, h1, ih h2]

theorem extendObjects_eq_append {news : List (ObjectId × Object)} :
    ∀ {base : List (ObjectId × Object)},
      (news.map Prod.fst).Nodup →
      (∀ k ∈ news.map Prod.fst, k ∉ base.map Prod.fst) →
      extendObjects base news = base ++ news := by
  induction news with
  | nil => intro base _ _; simp [extendObjects]
  | cons kv rest ih =>
      intro base hn hd
      obtain ⟨k, v⟩ := kv
      have hk : k ∉ base.map Prod.fst := hd k (by simp)
      have step : docInsert base k v = base ++ [(k, v)] := docInsert_of_notMem hk v
      have hn' : (rest.map Prod.fst).Nodup := by simpa using hn.of_cons
      have hd' : ∀ k' ∈ rest.map Prod.fst, k' ∉ (base ++ [(k, v)]).map Prod.fst := by
        intro k' hk' hmem
        rcases List.mem_map.mp hmem with ⟨p, hp, he⟩
        rcases List.mem_append.mp hp with h3 | h3
        · exact hd k' (by simp [hk']) (he ▸ List.mem_map.mpr ⟨p, h3, rfl⟩)
        · have hpe : p = (k, v) := by simpa using h3
          have hke : k' = k := by rw [hpe] at he; simpa using he.symm
          have hkmem : k ∈ rest.map Prod.fst := hke ▸ hk'
          have hhead : k ∉ rest.map Prod.fst := by
            have hn2 := hn
            simp only [List.map_cons] at hn2
            exact (List.nodup_cons.mp hn2).1
          exact hhead hkmem
      have := @ih (base ++ [(k, v)]) hn' hd'
      simp only [extendObjects, List.foldl_cons] at *
      rw [step] at *
      simpa [List.append_assoc] using this

/-! ## Lemmas about identifier renaming and renumbering -/

theorem dictGet_renameEntries (f : ObjectId → ObjectId) (d : Dict) (k : String) :
    dictGet (renameEntries f d) k = (dictGet d k).map (renameObject f) := by
  induction d with
  | nil => simp [renameEntries, dictGet]
  | cons kv rest ih =>
      obtain ⟨k', v⟩ := kv
      by_cases h : k' = k <;> simp [renameEntries, dictGet, h, ih]

theorem filterMap_asReference_renameMany (f : ObjectId → ObjectId) (xs : List Object) :
    (renameMany f xs).filterMap Object.asReference =
      (xs.filterMap Object.asReference).map f := by
  induction xs with
  | nil => simp [renameMany]
  | cons o rest ih =>
      cases o <;> simp [renameMany, renameObject, Object.asReference, ih]

theorem filterMap_asReference_map_reference (xs : List ObjectId) :
    (xs.map Object.reference).filterMap Object.asReference = xs := by
  induction xs with
  | nil => simp
  | cons x rest ih => simp [Object.asReference, ih]

theorem docGet_map_rename {objs : List (ObjectId × Object)} {id : ObjectId} {v : Object}
    (f : ObjectId → ObjectId)
    (hinj : ∀ k ∈ objs.map Prod.fst, f k = f id → k = id)
    (h : docGet objs id = some v) :
    docGet (objs.map (fun kv => (f kv.1, renameObject f kv.2))) (f id) =
      some (renameObject f v) := by
  induction objs with
  | nil => simp [docGet] at h
  | cons kv rest ih =>
      obtain ⟨k, w⟩ := kv
      by_cases hk : k = id
      · subst hk
        simp [docGet] at h
        subst h
        simp [docGet]
      · have hf : f k ≠ f id := fun he => hk (hinj k (by simp) he)
        simp [docGet, hk] at h
        simpa [docGet, hf] using ih (fun k' hk' he => hinj k' (by simp [hk']) he) h

theorem idxOfKey_getElem {keys : List ObjectId} (h : keys.Nodup) :
    ∀ i (hi : i < keys.length), idxOfKey keys keys[i] = some i := by
  induction keys with
  | nil => intro i hi; simp at hi
  | cons k rest ih =>
      intro i hi
      match i with
      | 0 => simp [idxOfKey]
      | Nat.succ j =>
          have hj : j < rest.length := by simpa using hi
          have hmem : rest[j] ∈ rest := List.getElem_mem hj
          have hk : k ≠ rest[j] := fun he => (List.nodup_cons.mp h).1 (he ▸ hmem)
          have := ih h.of_cons j hj
          simp [idxOfKey, hk, this]

theorem renumberFun_inj_on {keys : List ObjectId} (h : keys.Nodup) (s : Nat)
    {k k' : ObjectId} (hk : k ∈ keys) (hk' : k' ∈ keys)
    (he : renumberFun keys s k = renumberFun keys s k') : k = k' := by
  rcases List.mem_iff_getElem.mp hk with ⟨i, hi, rfl⟩
  rcases List.mem_iff_getElem.mp hk' with ⟨j, hj, rfl⟩
  rw [renumberFun, renumberFun, idxOfKey_getElem h i hi, idxOfKey_getElem h j hj] at he
  simp only [Prod.mk.injEq] at he
  have : i = j := by omega
  subst this
  rfl

theorem map_renumberFun {keys : List ObjectId} (h : keys.Nodup) (s : Nat) :
    keys.map (renumberFun keys s) =
      (List.range keys.length).map (fun i => ((s + i, 0) : ObjectId)) := by
  apply List.ext_getElem
  · simp
  · intro i h1 h2
    have hi : i < keys.length := by simpa using h1
    simp [renumberFun, idxOfKey_getElem h i hi]

theorem keys_renumberWith (doc : Document) (s : Nat) :
    (doc.renumberWith s).objects.map Prod.fst =
      (doc.objects.map Prod.fst).map (renumberFun (doc.objects.map Prod.fst) s) := by
  simp [Document.renumberWith, List.map_map]

/-! ## The resolution chain and its preservation -/

theorem pageIds_of_chain {doc : Document} {rid pid : ObjectId} {cat pd : Dict}
    {kids : List Object} (hc : PageChain doc rid pid cat pd kids) :
    doc.pageIds = kids.filterMap Object.asReference := by
  simp [Document.pageIds, Document.catalogDict, Document.rootId,
    hc.root_ref, hc.cat_dict, hc.pages_ref, hc.pages_dict, hc.kids_arr]

theorem chainData_of_chain {doc : Document} {rid pid : ObjectId} {cat pd : Dict}
    {kids : List Object} (hc : PageChain doc rid pid cat pd kids) :
    chainData doc = some (rid, pid, cat, pd, kids) := by
  simp [chainData, hc.root_ref, hc.cat_dict, hc.pages_ref, hc.pages_dict, hc.kids_arr]

theorem chain_of_chainData {doc : Document} {rid pid : ObjectId} {cat pd : Dict}
    {kids : List Object} (h : chainData doc = some (rid, pid, cat, pd, kids)) :
    PageChain doc rid pid cat pd kids := by
  unfold chainData at h
  repeat' split at h
  all_goals simp_all
  obtain ⟨h1, h2, h3, h4, h5⟩ := h
  subst h1
  subst h2
  subst h3
  subst h4
  subst h5
  constructor <;> assumption

theorem wfDoc_elim {doc : Document} (h : wfDoc doc = true) :
    (doc.objects.map Prod.fst).Nodup ∧
    (∀ k ∈ doc.objects.map Prod.fst, k.1 ≤ doc.maxId) ∧
    ∃ rid pid cat pd kids,
      PageChain doc rid pid cat pd kids ∧ rid ≠ pid ∧ allRefs kids = true := by
  unfold wfDoc at h
  simp only [Bool.and_eq_true] at h
  obtain ⟨⟨h1, h2⟩, h3⟩ := h
  refine ⟨of_decide_eq_true h1, ?_, ?_⟩
  · intro k hk
    exact of_decide_eq_true (List.all_eq_true.mp h2 k hk)
  · rcases hcd : chainData doc with _ | ⟨⟨rid, pid, cat, pd, kids⟩⟩
    · rw [hcd] at h3; simp at h3
    · rw [hcd] at h3
      simp only [Bool.and_eq_true] at h3
      obtain ⟨hne, hrefs⟩ := h3
      exact ⟨rid, pid, cat, pd, kids, chain_of_chainData hcd, of_decide_eq_true hne, hrefs⟩

theorem length_filterMap_asReference_of_allRefs {kids : List Object}
    (h : allRefs kids = true) :
    (kids.filterMap Object.asReference).length = kids.length := by
  induction kids with
  | nil => simp
  | cons o rest ih =>
      have hsplit : (Object.asReference o).isSome = true ∧ allRefs rest = true := by
        simpa [allRefs] using h
      obtain ⟨ho, hrest⟩ := hsplit
      cases o <;> simp_all [Object.asReference, allRefs]

theorem pageIds_renumberWith {doc : Document} {rid pid : ObjectId} {cat pd : Dict}
    {kids : List Object} (s : Nat)
    (hn : (doc.objects.map Prod.fst).Nodup)
    (hc : PageChain doc rid pid cat pd kids) :
    (doc.renumberWith s).pageIds =
      doc.pageIds.map (renumberFun (doc.objects.map Prod.fst) s) := by
  set keys := doc.objects.map Prod.fst with hkeys
  set f := renumberFun keys s with hf
  have hget : ∀ {id : ObjectId} {v : Object}, doc.getObject id = some v →
      (doc.renumberWith s).getObject (f id) = some (renameObject f v) := by
    intro id v hv
    have hidmem : id ∈ keys := docGet_mem_keys hv
    have hinj : ∀ k ∈ keys, f k = f id → k = id := fun k hk he =>
      renumberFun_inj_on hn s hk hidmem he
    simpa [Document.renumberWith, Document.getObject] using
      docGet_map_rename f hinj hv
  have hchain' : PageChain (doc.renumberWith s) (f rid) (f pid)
      (renameEntries f cat) (renameEntries f pd) (renameMany f kids) := by
    constructor
    · simp [Document.renumberWith, dictGet_renameEntries, hc.root_ref, renameObject]
    · simpa [renameObject] using hget hc.cat_dict
    · simp [dictGet_renameEntries, hc.pages_ref, renameObject]
    · simpa [renameObject] using hget hc.pages_dict
    · simp [dictGet_renameEntries, hc.kids_arr, renameObject]
  rw [pageIds_of_chain hchain', pageIds_of_chain hc,
    filterMap_asReference_renameMany]

theorem length_pageIds_renumberWith {doc : Document} {rid pid : ObjectId} {cat pd : Dict}
    {kids : List Object} (s : Nat)
    (hn : (doc.objects.map Prod.fst).Nodup)
    (hc : PageChain doc rid pid cat pd kids) :
    (doc.renumberWith s).pageIds.length = doc.pageIds.length := by
  rw [pageIds_renumberWith s hn hc, List.length_map]

/-! ## The splice and the absorb loop -/

theorem allRefs_append (a b : List Object) :
    allRefs (a ++ b) = (allRefs a && allRefs b) := by
  simp [allRefs, List.all_append]

theorem allRefs_map_reference (ids : List ObjectId) :
    allRefs (ids.map Object.reference) = true := by
  induction ids with
  | nil => rfl
  | cons x rest ih => simpa [allRefs, Object.asReference] using ih

theorem catalogDict_of_chain {doc : Document} {rid pid : ObjectId} {cat pd : Dict}
    {kids : List Object} (hc : PageChain doc rid pid cat pd kids) :
    doc.catalogDict = some cat := by
  simp [Document.catalogDict, Document.rootId, hc.root_ref, hc.cat_dict]

theorem chain_append {doc : Document} {rid pid : ObjectId} {cat pd : Dict}
    {kids : List Object} (hc : PageChain doc rid pid cat pd kids)
    (news : List (ObjectId × Object)) :
    PageChain { doc with objects := doc.objects ++ news } rid pid cat pd kids := by
  constructor
  · exact hc.root_ref
  · exact docGet_append_of_some hc.cat_dict
  · exact hc.pages_ref
  · exact docGet_append_of_some hc.pages_dict
  · exact hc.kids_arr

/-- The dictionary the splice installs at the Pages root. -/
def splicedPagesDict (pd : Dict) (kids : List Object) (page_ids : List ObjectId) : Dict :=
  dictSet (dictSet pd "Kids" (.array (kids ++ page_ids.map Object.reference)))
    "Count"
    (.integer ((match (dictGet pd "Count").bind Object.asI64 with
      | some c => c
      | none => 0) + (page_ids.length : Int)))

theorem add_pages_to_tree_eq {merged : Document} {rid pid : ObjectId} {cat pd : Dict}
    {kids : List Object} (hc : PageChain merged rid pid cat pd kids)
    (page_ids : List ObjectId) :
    Merger.add_pages_to_tree merged page_ids =
      .ok (merged.setObject pid (.dictionary (splicedPagesDict pd kids page_ids))) := by
  have hkne : ("Kids" : String) ≠ "Count" := by decide
  simp [Merger.add_pages_to_tree, catalogDict_of_chain hc, hc.pages_ref, hc.pages_dict,
    hc.kids_arr, splicedPagesDict, dictGet_dictSet_ne hkne]

theorem chain_after_splice {merged : Document} {rid pid : ObjectId} {cat pd : Dict}
    {kids : List Object} (hc : PageChain merged rid pid cat pd kids) (hne : rid ≠ pid)
    (page_ids : List ObjectId) :
    PageChain (merged.setObject pid (.dictionary (splicedPagesDict pd kids page_ids)))
      rid pid cat (splicedPagesDict pd kids page_ids)
      (kids ++ page_ids.map Object.reference) := by
  have hck : ("Count" : String) ≠ "Kids" := by decide
  constructor
  · exact hc.root_ref
  · show docGet (docInsert merged.objects pid _) rid = _
    rw [docGet_docInsert_ne hne.symm]
    exact hc.cat_dict
  · exact hc.pages_ref
  · show docGet (docInsert merged.objects pid _) pid = _
    rw [docGet_docInsert_self]
  · show dictGet (splicedPagesDict pd kids page_ids) "Kids" = _
    rw [splicedPagesDict, dictGet_dictSet_ne hck, dictGet_dictSet_self]

theorem applyPageOps_none {config : Config} (h1 : config.page_range = none)
    (h2 : config.rotation = none) (doc : Document) :
    Merger.applyPageOps config doc = .ok doc := by
  simp [Merger.applyPageOps, h1, h2]
  rfl

theorem mergeInv_of_wfDoc {doc : Document} (h : wfDoc doc = true) :
    MergeInv doc doc.maxId := by
  obtain ⟨hn, hb, hch⟩ := wfDoc_elim h
  exact ⟨hn, hb, hch⟩

theorem absorbOne_ok {config : Config} (h1 : config.page_range = none)
    (h2 : config.rotation = none) {merged : Document} {w : Nat}
    (inv : MergeInv merged w) {loaded : LoadedPdf} (hwf : wfDoc loaded.document = true) :
    ∃ merged',
      Merger.absorbOne config (merged, w) loaded =
        .ok (merged', w + loaded.document.objects.length) ∧
      MergeInv merged' (w + loaded.document.objects.length) ∧
      merged'.pageIds.length = merged.pageIds.length + loaded.document.pageIds.length := by
  classical
  set D := loaded.document with hD
  obtain ⟨hnD, _, ridD, pidD, catD, pdD, kidsD, hcD, hneD, hrefsD⟩ :=
    (by simpa using wfDoc_elim hwf :
      (D.objects.map Prod.fst).Nodup ∧
      (∀ k ∈ D.objects.map Prod.fst, k.1 ≤ D.maxId) ∧
      ∃ rid pid cat pd kids,
        PageChain D rid pid cat pd kids ∧ rid ≠ pid ∧ allRefs kids = true)
  obtain ⟨ridM, pidM, catM, pdM, kidsM, hcM, hneM, hrefsM⟩ := inv.chain
  set n := D.objects.length with hn
  set R := D.renumberWith (w + 1) with hR
  have hkeysR : R.objects.map Prod.fst =
      (List.range (D.objects.map Prod.fst).length).map (fun i => ((w + 1 + i, 0) : ObjectId)) := by
    rw [hR, keys_renumberWith, map_renumberFun hnD]
  have hlenkeys : (D.objects.map Prod.fst).length = n := by simp [hn]
  have hinj : Function.Injective (fun i => ((w + 1 + i, 0) : ObjectId)) := by
    intro i j hij
    simpa using hij
  have hnR : (R.objects.map Prod.fst).Nodup := by
    rw [hkeysR]
    exact (List.nodup_range _).map hinj
  have hboundR : ∀ k ∈ R.objects.map Prod.fst, w + 1 ≤ k.1 ∧ k.1 ≤ w + n := by
    intro k hk
    rw [hkeysR, hlenkeys] at hk
    rcases List.mem_map.mp hk with ⟨i, hi, rfl⟩
    have : i < n := List.mem_range.mp hi
    constructor
    · simp
    · simp
      omega
  have hdisj : ∀ k ∈ R.objects.map Prod.fst, k ∉ merged.objects.map Prod.fst := by
    intro k hk hmem
    have h1 := (hboundR k hk).1
    have h2 := inv.bounded k hmem
    omega
  have hext : extendObjects merged.objects R.objects = merged.objects ++ R.objects :=
    extendObjects_eq_append hnR hdisj
  set preSplice : Document := { merged with objects := merged.objects ++ R.objects } with hpre
  have hcPre : PageChain preSplice ridM pidM catM pdM kidsM := chain_append hcM R.objects
  have hsplice := add_pages_to_tree_eq hcPre R.pageIds
  set spliced := preSplice.setObject pidM
    (.dictionary (splicedPagesDict pdM kidsM R.pageIds)) with hsp
  have hcSp : PageChain spliced ridM pidM catM (splicedPagesDict pdM kidsM R.pageIds)
      (kidsM ++ R.pageIds.map Object.reference) := chain_after_splice hcPre hneM R.pageIds
  have hmaxR : R.maxId = w + n := by
    rw [hR, hD]
    simp [Document.renumberWith, hn]
  have hkeysSp : spliced.objects.map Prod.fst =
      merged.objects.map Prod.fst ++ R.objects.map Prod.fst := by
    have hpidmem : pidM ∈ preSplice.objects.map Prod.fst :=
      docGet_mem_keys hcPre.pages_dict
    rw [hsp]
    show (docInsert preSplice.objects pidM _).map Prod.fst = _
    rw [keys_docInsert_of_mem hpidmem]
    simp [hpre]
  have hinvSp : MergeInv spliced (w + n) := by
    constructor
    · rw [hkeysSp]
      refine List.Nodup.append inv.nodup hnR ?_
      intro a ha hb
      exact hdisj a hb ha
    · intro k hk
      rw [hkeysSp] at hk
      rcases List.mem_append.mp hk with hk | hk
      · have := inv.bounded k hk; omega
      · exact (hboundR k hk).2
    · refine ⟨ridM, pidM, catM, _, _, hcSp, hneM, ?_⟩
      rw [allRefs_append, hrefsM, allRefs_map_reference]
      rfl
  have hpagesSp : spliced.pageIds = merged.pageIds ++ R.pageIds := by
    rw [pageIds_of_chain hcSp, pageIds_of_chain hcM]
    rw [List.filterMap_append, filterMap_asReference_map_reference]
  have hlenR : R.pageIds.length = D.pageIds.length :=
    length_pageIds_renumberWith (w + 1) hnD hcD
  refine ⟨spliced, ?_, ?_, ?_⟩
  · show Merger.absorbOne config (merged, w) loaded = _
    rw [Merger.absorbOne]
    rw [show Merger.applyPageOps config loaded.document = .ok loaded.document from
      applyPageOps_none h1 h2 _]
    rw [ok_bind]
    simp only [← hD, ← hR, hext, ← hpre]
    rw [hsplice, hmaxR]
    rfl
  · exact hinvSp
  · rw [hpagesSp, List.length_append, hlenR]

theorem absorbFold_ok {config : Config} (h1 : config.page_range = none)
    (h2 : config.rotation = none) :
    ∀ (rest : List LoadedPdf) {merged : Document} {w : Nat},
      MergeInv merged w → (∀ l ∈ rest, wfDoc l.document = true) →
      ∃ merged' w',
        rest.foldlM (Merger.absorbOne config) (merged, w) = .ok (merged', w') ∧
        MergeInv merged' w' ∧
        merged'.pageIds.length =
          merged.pageIds.length + (rest.map (fun l => l.document.pageIds.length)).sum := by
  intro rest
  induction rest with
  | nil =>
      intro merged w inv _
      exact ⟨merged, w, rfl, inv, by simp⟩
  | cons loaded rest ih =>
      intro merged w inv hwf
      obtain ⟨m1, heq, inv1, hlen1⟩ :=
        absorbOne_ok h1 h2 inv (hwf loaded (by simp))
      obtain ⟨m2, w2, heq2, inv2, hlen2⟩ :=
        ih inv1 (fun l hl => hwf l (by simp [hl]))
      refine ⟨m2, w2, ?_, inv2, ?_⟩
      · rw [List.foldlM_cons, heq, ok_bind, heq2]
      · rw [hlen2, hlen1]
        simp
        omega

theorem merge_documents_ok {config : Config} (h1 : config.page_range = none)
    (h2 : config.rotation = none) (h3 : config.bookmarks = false)
    (h4 : config.metadata.isEmpty = true) (h5 : config.compression = .levelNone)
    {loaded_pdfs : List LoadedPdf} (hne : loaded_pdfs ≠ [])
    (hwf : ∀ l ∈ loaded_pdfs, wfDoc l.document = true) (now : String) :
    ∃ d, Merger.merge_documents loaded_pdfs config now = .ok d ∧
      d.pageIds.length = (loaded_pdfs.map (fun l => l.document.pageIds.length)).sum := by
  classical
  match loaded_pdfs, hne with
  | first :: rest, _ =>
      have hwfF : wfDoc first.document = true := hwf first (by simp)
      have invBase : MergeInv first.document first.document.maxId := mergeInv_of_wfDoc hwfF
      obtain ⟨merged, w, hfold, invM, hlenM⟩ :=
        absorbFold_ok h1 h2 rest invBase (fun l hl => hwf l (by simp [hl]))
      obtain ⟨rid, pid, cat, pd, kids, hcM, hneM, hrefsM⟩ := invM.chain
      have hfin : (merged.renumber).pageIds.length = merged.pageIds.length :=
        length_pageIds_renumberWith 1 invM.nodup hcM
      refine ⟨merged.renumber, ?_, ?_⟩
      · rw [Merger.merge_documents]
        rw [show Merger.applyPageOps config first.document = .ok first.document from
          applyPageOps_none h1 h2 _]
        rw [ok_bind, hfold, ok_bind, h3]
        simp only [Bool.false_eq_true, if_false, ok_bind, h4, if_true, h5]
        rfl
      · rw [hfin, hlenM]
        simp

theorem collectLoaded_all_ok (c : Bool) (loaded_pdfs : List LoadedPdf) :
    Merger.collectLoaded c (loaded_pdfs.map Except.ok) = .ok loaded_pdfs := by
  induction loaded_pdfs with
  | nil => rfl
  | cons l rest ih => simp [Merger.collectLoaded, ih]

theorem collectLoaded_continue (results : List (Except PdfCatError LoadedPdf)) :
    Merger.collectLoaded true results = .ok (results.filterMap Except.toOption) := by
  induction results with
  | nil => rfl
  | cons r rest ih =>
      cases r with
      | ok l => simp [Merger.collectLoaded, ih, Except.toOption]
      | error e => simp [Merger.collectLoaded, ih, Except.toOption]

theorem length_filterMap_toOption_add_failures
    (results : List (Except PdfCatError LoadedPdf)) :
    (results.filterMap Except.toOption).length +
      (results.filter (fun r => (Except.toOption r).isNone)).length = results.length := by
  induction results with
  | nil => rfl
  | cons r rest ih =>
      cases r with
      | ok l =>
          simp only [Except.toOption, List.filterMap_cons, List.filter_cons,
            Option.isNone_some, List.length_cons, Bool.false_eq_true, if_false] at *
          omega
      | error e =>
          simp only [Except.toOption, List.filterMap_cons, List.filter_cons,
            Option.isNone_none, List.length_cons, if_true] at *
          omega

theorem merge_ok_of_collect {config : Config} (h1 : config.page_range = none)
    (h2 : config.rotation = none) (h3 : config.bookmarks = false)
    (h4 : config.metadata.isEmpty = true) (h5 : config.compression = .levelNone)
    {load_results : List (Except PdfCatError LoadedPdf)} {loaded : List LoadedPdf}
    (hcollect : Merger.collectLoaded config.continue_on_error load_results = .ok loaded)
    (hne : loaded ≠ []) (hwf : ∀ l ∈ loaded, wfDoc l.document = true) (now : String) :
    ∃ res, Merger.merge load_results config now = .ok res ∧
      res.statistics.files_merged = loaded.length ∧
      res.document.pageIds.length =
        (loaded.map (fun l => l.document.pageIds.length)).sum ∧
      res.statistics.total_pages =
        (loaded.map (fun l => l.document.pageIds.length)).sum ∧
      res.merged_files = loaded.map (·.path) := by
  obtain ⟨d, hd, hlen⟩ := merge_documents_ok h1 h2 h3 h4 h5 hne hwf now
  have hemp : loaded.isEmpty = false := by
    cases loaded with
    | nil => exact absurd rfl hne
    | cons a l => rfl
  have hm : Merger.merge load_results config now =
      .ok { document := d,
            statistics :=
              { files_merged := loaded.length,
                total_pages := d.pageIds.length,
                input_size := (loaded.map (·.file_size)).sum,
                bookmarks_added := 0,
                compressed := decide (config.compression ≠ CompressionLevel.levelNone) },
            merged_files := loaded.map (·.path) } := by
    rw [Merger.merge, hcollect, ok_bind, hemp]
    simp only [Bool.false_eq_true, if_false]
    rw [hd, ok_bind]
  exact ⟨_, hm, rfl, hlen, hlen, rfl⟩

theorem merge_error_of_empty {config : Config}
    {load_results : List (Except PdfCatError LoadedPdf)}
    (hcollect : Merger.collectLoaded config.continue_on_error load_results = .ok [])
    (now : String) :
    Merger.merge load_results config now = .error .noFilesToMerge := by
  rw [Merger.merge, hcollect, ok_bind]
  rfl

/-! ## Page selection: sortedness, deduplication, bounds -/

theorem chain'_lt_dedupFrom :
    ∀ (l : List Nat) (a : Nat), List.Chain' (· ≤ ·) (a :: l) →
      List.Chain' (· < ·) (a :: dedupFrom a l) := by
  intro l
  induction l with
  | nil => intro a _; simp [dedupFrom]
  | cons b rest ih =>
      intro a h
      obtain ⟨hab, hb⟩ := List.chain'_cons.mp h
      by_cases he : a = b
      · subst he
        simpa [dedupFrom] using ih a (by simpa using hb)
      · have hlt : a < b := lt_of_le_of_ne hab he
        have := ih b hb
        simp only [dedupFrom, he, if_false]
        exact List.chain'_cons.mpr ⟨hlt, this⟩

theorem pairwise_lt_dedupConsecutive {l : List Nat}
    (h : List.Chain' (· ≤ ·) l) :
    List.Pairwise (· < ·) (dedupConsecutive l) := by
  cases l with
  | nil => simp [dedupConsecutive]
  | cons a rest =>
      have := chain'_lt_dedupFrom rest a h
      rw [dedupConsecutive]
      exact List.chain'_iff_pairwise.mp this

theorem to_pages_pairwise_lt (pr : PageRange) (maxPages : Nat) :
    List.Pairwise (· < ·) (pr.to_pages maxPages) := by
  apply pairwise_lt_dedupConsecutive
  apply List.chain'_iff_pairwise.mpr
  exact List.sorted_insertionSort (· ≤ ·) _

theorem mem_dedupFrom {x : Nat} : ∀ {l : List Nat} {a : Nat}, x ∈ dedupFrom a l → x ∈ l := by
  intro l
  induction l with
  | nil => intro a h; simp [dedupFrom] at h
  | cons b rest ih =>
      intro a h
      by_cases he : a = b
      · simp only [dedupFrom, he, if_true] at h
        exact List.mem_cons_of_mem _ (ih h)
      · simp only [dedupFrom, he, if_false] at h
        rcases List.mem_cons.mp h with h | h
        · exact h ▸ List.mem_cons_self b rest
        · exact List.mem_cons_of_mem _ (ih h)

theorem mem_dedupConsecutive {x : Nat} {l : List Nat}
    (h : x ∈ dedupConsecutive l) : x ∈ l := by
  cases l with
  | nil => simp [dedupConsecutive] at h
  | cons a rest =>
      rw [dedupConsecutive] at h
      rcases List.mem_cons.mp h with h | h
      · exact h ▸ List.mem_cons_self a rest
      · exact List.mem_cons_of_mem _ (mem_dedupFrom h)

theorem to_pages_mem_bounds {pr : PageRange} {maxPages p : Nat}
    (h : p ∈ pr.to_pages maxPages) : 1 ≤ p ∧ p ≤ maxPages := by
  have h1 : p ∈ (List.range' 1 maxPages).filter (fun q => pr.containsPage q) := by
    have := mem_dedupConsecutive h
    exact ((List.perm_insertionSort (· ≤ ·) _).mem_iff).mp this
  have h2 : p ∈ List.range' 1 maxPages := List.mem_of_mem_filter h1
  have := List.mem_range'_1.mp h2
  omega

theorem to_pages_no_overflow (pr : PageRange) (maxPages : Nat) :
    (pr.to_pages maxPages).any (fun p => decide (p > maxPages)) = false := by
  rw [List.any_eq_false]
  intro p hp
  have := (to_pages_mem_bounds hp).2
  simpa using this

theorem length_filterMap_pageLookup {pages : List ObjectId} :
    ∀ {requested : List Nat},
      (∀ p ∈ requested, 1 ≤ p ∧ p ≤ pages.length) →
      (requested.filterMap (pageLookup pages)).length = requested.length := by
  intro requested
  induction requested with
  | nil => intro _; rfl
  | cons p rest ih =>
      intro h
      obtain ⟨h1, h2⟩ := h p (by simp)
      match p, h1 with
      | Nat.succ m, _ =>
          have hm : m < pages.length := by omega
          rw [List.filterMap_cons]
          rw [show pageLookup pages (Nat.succ m) = some (pages.get ⟨m, hm⟩) from by
            simp [pageLookup, List.get?_eq_get hm]]
          simpa using ih (fun q hq => h q (by simp [hq]))

/-! ## The page-tree rewrite and its effect -/

theorem rootId_elim {doc : Document} {rid : ObjectId} (h : doc.rootId = some rid) :
    dictGet doc.trailer "Root" = some (.reference rid) := by
  unfold Document.rootId at h
  cases hg : dictGet doc.trailer "Root" with
  | none => rw [hg] at h; simp at h
  | some o =>
      rw [hg] at h
      cases o <;> simp_all

theorem catalogDict_elim {doc : Document} {cat : Dict}
    (h : doc.catalogDict = some cat) :
    ∃ rid, dictGet doc.trailer "Root" = some (.reference rid) ∧
      doc.getObject rid = some (.dictionary cat) := by
  unfold Document.catalogDict at h
  split at h
  next rid heq =>
    split at h
    next d heq2 =>
      have hd : d = cat := by simpa using h
      subst hd
      exact ⟨rid, rootId_elim heq, heq2⟩
    next => simp at h
  next => simp at h

theorem chain_after_setPages {doc : Document} {rid pid : ObjectId} {cat pd : Dict}
    (hroot : dictGet doc.trailer "Root" = some (.reference rid))
    (hcat : doc.getObject rid = some (.dictionary cat))
    (href : dictGet cat "Pages" = some (.reference pid))
    (hpd : doc.getObject pid = some (.dictionary pd))
    {newPd : Dict} {kids' : List Object}
    (hpres : dictGet newPd "Pages" = dictGet pd "Pages")
    (hk : dictGet newPd "Kids" = some (.array kids')) :
    ∃ cat', PageChain (doc.setObject pid (.dictionary newPd)) rid pid cat' newPd kids' := by
  by_cases he : rid = pid
  · subst he
    have hcp : cat = pd := by
      rw [hcat] at hpd
      injection hpd with h2
      injection h2
    refine ⟨newPd, ?_, ?_, ?_, ?_, hk⟩
    · exact hroot
    · show docGet (docInsert doc.objects rid _) rid = _
      rw [docGet_docInsert_self]
    · rw [hpres, ← hcp]
      exact href
    · show docGet (docInsert doc.objects rid _) rid = _
      rw [docGet_docInsert_self]
  · refine ⟨cat, ?_, ?_, ?_, ?_, hk⟩
    · exact hroot
    · show docGet (docInsert doc.objects pid _) rid = _
      rw [docGet_docInsert_ne (fun hh => he hh.symm)]
      exact hcat
    · exact href
    · show docGet (docInsert doc.objects pid _) pid = _
      rw [docGet_docInsert_self]

/-- The dictionary the extraction rewrite installs at the Pages root. -/
def rewrittenPagesDict (pd : Dict) (page_ids : List ObjectId) : Dict :=
  dictSet (dictSet pd "Kids" (.array (page_ids.map Object.reference)))
    "Count" (.integer (page_ids.length : Int))

theorem update_page_tree_eq {doc : Document} {cat : Dict} {pid : ObjectId} {pd : Dict}
    (hcat : doc.catalogDict = some cat)
    (href : dictGet cat "Pages" = some (.reference pid))
    (hpd : doc.getObject pid = some (.dictionary pd)) (page_ids : List ObjectId) :
    PageExtractor.update_page_tree doc page_ids =
      .ok (doc.setObject pid (.dictionary (rewrittenPagesDict pd page_ids))) := by
  simp [PageExtractor.update_page_tree, hcat, href, hpd, rewrittenPagesDict]

theorem rewrittenPagesDict_pages (pd : Dict) (page_ids : List ObjectId) :
    dictGet (rewrittenPagesDict pd page_ids) "Pages" = dictGet pd "Pages" := by
  rw [rewrittenPagesDict, dictGet_dictSet_ne (by decide), dictGet_dictSet_ne (by decide)]

theorem rewrittenPagesDict_kids (pd : Dict) (page_ids : List ObjectId) :
    dictGet (rewrittenPagesDict pd page_ids) "Kids" =
      some (.array (page_ids.map Object.reference)) := by
  rw [rewrittenPagesDict, dictGet_dictSet_ne (by decide), dictGet_dictSet_self]

theorem rewrittenPagesDict_count (pd : Dict) (page_ids : List ObjectId) :
    dictGet (rewrittenPagesDict pd page_ids) "Count" =
      some (.integer (page_ids.length : Int)) := by
  rw [rewrittenPagesDict, dictGet_dictSet_self]

theorem splicedPagesDict_pages (pd : Dict) (kids : List Object) (page_ids : List ObjectId) :
    dictGet (splicedPagesDict pd kids page_ids) "Pages" = dictGet pd "Pages" := by
  rw [splicedPagesDict, dictGet_dictSet_ne (by decide), dictGet_dictSet_ne (by decide)]

theorem splicedPagesDict_kids (pd : Dict) (kids : List Object) (page_ids : List ObjectId) :
    dictGet (splicedPagesDict pd kids page_ids) "Kids" =
      some (.array (kids ++ page_ids.map Object.reference)) := by
  rw [splicedPagesDict, dictGet_dictSet_ne (by decide), dictGet_dictSet_self]

theorem splicedPagesDict_count (pd : Dict) (kids : List Object) (page_ids : List ObjectId) :
    dictGet (splicedPagesDict pd kids page_ids) "Count" =
      some (.integer ((match (dictGet pd "Count").bind Object.asI64 with
        | some c => c
        | none => 0) + (page_ids.length : Int))) := by
  rw [splicedPagesDict, dictGet_dictSet_self]

theorem update_page_tree_ok_elim {doc : Document} {page_ids : List ObjectId} {doc' : Document}
    (h : PageExtractor.update_page_tree doc page_ids = .ok doc') :
    ∃ cat pid pd, doc.catalogDict = some cat ∧
      dictGet cat "Pages" = some (.reference pid) ∧
      doc.getObject pid = some (.dictionary pd) ∧
      doc' = doc.setObject pid (.dictionary (rewrittenPagesDict pd page_ids)) := by
  unfold PageExtractor.update_page_tree at h
  split at h
  next => simp at h
  next cat heq =>
    split at h
    next pid heq2 =>
      split at h
      next pd heq3 =>
          have hd : doc.setObject pid
              (.dictionary (rewrittenPagesDict pd page_ids)) = doc' := by
            simpa [rewrittenPagesDict] using h
          exact ⟨cat, pid, pd, heq, heq2, heq3, hd.symm⟩
      next => simp at h
      next => simp at h
    next => simp at h

theorem extract_pages_eq_update {doc : Document} {pr : PageRange}
    (hne : pr.to_pages doc.pageIds.length ≠ []) :
    PageExtractor.extract_pages doc pr =
      PageExtractor.update_page_tree doc
        ((pr.to_pages doc.pageIds.length).filterMap (pageLookup doc.pageIds)) := by
  have hov := to_pages_no_overflow pr doc.pageIds.length
  have hlen : ((pr.to_pages doc.pageIds.length).filterMap (pageLookup doc.pageIds)).length =
      (pr.to_pages doc.pageIds.length).length :=
    length_filterMap_pageLookup (fun p hp => to_pages_mem_bounds hp)
  have hpne : (pr.to_pages doc.pageIds.length).filterMap (pageLookup doc.pageIds) ≠ [] := by
    intro h0
    apply hne
    have := congrArg List.length h0
    rw [hlen] at this
    exact List.length_eq_zero.mp this
  simp [PageExtractor.extract_pages, hne, hov, hpne]

theorem extract_pages_result {doc : Document} {pr : PageRange} {doc' : Document}
    (h : PageExtractor.extract_pages doc pr = .ok doc') :
    doc'.pageIds = (pr.to_pages doc.pageIds.length).filterMap (pageLookup doc.pageIds) ∧
    doc'.pageIds.length = (pr.to_pages doc.pageIds.length).length ∧
    docCount doc' = some (((pr.to_pages doc.pageIds.length).length : Nat) : Int) ∧
    countMatchesKids doc' := by
  by_cases hne : pr.to_pages doc.pageIds.length = []
  · rw [PageExtractor.extract_pages] at h
    rw [hne] at h
    simp at h
  · rw [extract_pages_eq_update hne] at h
    obtain ⟨cat, pid, pd, hcat, href, hpd, hdoc'⟩ := update_page_tree_ok_elim h
    obtain ⟨rid, hroot, hcatobj⟩ := catalogDict_elim hcat
    set page_ids := (pr.to_pages doc.pageIds.length).filterMap (pageLookup doc.pageIds)
      with hpids
    obtain ⟨cat', hchain'⟩ :=
      chain_after_setPages hroot hcatobj href hpd
        (rewrittenPagesDict_pages pd page_ids) (rewrittenPagesDict_kids pd page_ids)
    have hlen : page_ids.length = (pr.to_pages doc.pageIds.length).length := by
      rw [hpids]
      exact length_filterMap_pageLookup (fun p hp => to_pages_mem_bounds hp)
    have hpg : doc'.pageIds = page_ids := by
      rw [hdoc', pageIds_of_chain hchain', filterMap_asReference_map_reference]
    have hcd : chainData doc' =
        some (rid, pid, cat', rewrittenPagesDict pd page_ids,
          page_ids.map Object.reference) := by
      rw [hdoc']
      exact chainData_of_chain hchain'
    have hcount : docCount doc' = some ((page_ids.length : Nat) : Int) := by
      rw [docCount, hcd]
      simp [rewrittenPagesDict_count, Object.asI64]
    refine ⟨hpg, by rw [hpg, hlen], by rw [hcount, hlen], ?_⟩
    refine ⟨page_ids.map Object.reference, ?_, ?_⟩
    · rw [kidsList, hcd]
    · rw [hcount]
      simp

/-! ## Splice success analysis -/

theorem add_pages_to_tree_ok_elim {merged : Document} {ids : List ObjectId}
    {merged' : Document} (h : Merger.add_pages_to_tree merged ids = .ok merged') :
    ∃ rid cat pid pd kids,
      dictGet merged.trailer "Root" = some (.reference rid) ∧
      merged.getObject rid = some (.dictionary cat) ∧
      dictGet cat "Pages" = some (.reference pid) ∧
      merged.getObject pid = some (.dictionary pd) ∧
      dictGet pd "Kids" = some (.array kids) ∧
      merged' = merged.setObject pid (.dictionary (splicedPagesDict pd kids ids)) := by
  unfold Merger.add_pages_to_tree at h
  split at h
  next => simp at h
  next cat heq =>
    split at h
    next pid heq2 =>
      split at h
      next pd heq3 =>
          split at h
          next kids heq4 =>
              obtain ⟨rid, hroot, hcatobj⟩ := catalogDict_elim heq
              have hd : merged.setObject pid
                  (.dictionary (splicedPagesDict pd kids ids)) = merged' := by
                simpa [splicedPagesDict,
                  dictGet_dictSet_ne (show ("Kids" : String) ≠ "Count" by decide)]
                  using h
              exact ⟨rid, cat, pid, pd, kids, hroot, hcatobj, heq2, heq3, heq4, hd.symm⟩
          next => simp at h
          next => simp at h
      next => simp at h
      next => simp at h
    next => simp at h

theorem add_pages_result {merged : Document} {ids : List ObjectId} {merged' : Document}
    (h : Merger.add_pages_to_tree merged ids = .ok merged') :
    ∃ kids, kidsList merged = some kids ∧
      kidsList merged' = some (kids ++ ids.map Object.reference) ∧
      docCount merged' = some ((match docCount merged with
        | some c => c
        | none => 0) + (ids.length : Int)) := by
  obtain ⟨rid, cat, pid, pd, kids, hroot, hcatobj, href, hpd, hkids, hdoc'⟩ :=
    add_pages_to_tree_ok_elim h
  have hchain : PageChain merged rid pid cat pd kids :=
    ⟨hroot, hcatobj, href, hpd, hkids⟩
  have hcd : chainData merged = some (rid, pid, cat, pd, kids) := chainData_of_chain hchain
  obtain ⟨cat', hchain'⟩ :=
    chain_after_setPages hroot hcatobj href hpd
      (splicedPagesDict_pages pd kids ids) (splicedPagesDict_kids pd kids ids)
  have hcd' : chainData merged' =
      some (rid, pid, cat', splicedPagesDict pd kids ids,
        kids ++ ids.map Object.reference) := by
    rw [hdoc']
    exact chainData_of_chain hchain'
  refine ⟨kids, by rw [kidsList, hcd], by rw [kidsList, hcd'], ?_⟩
  have hstep : docCount merged' =
      (dictGet (splicedPagesDict pd kids ids) "Count").bind Object.asI64 := by
    rw [docCount, hcd']
  have hstep2 : docCount merged = (dictGet pd "Count").bind Object.asI64 := by
    rw [docCount, hcd]
  rw [hstep, splicedPagesDict_count, hstep2]
  simp [Object.asI64]

theorem splice_preserves_count_invariant {merged : Document} {ids : List ObjectId}
    {merged' : Document} (hinv : countMatchesKids merged)
    (h : Merger.add_pages_to_tree merged ids = .ok merged') :
    countMatchesKids merged' := by
  obtain ⟨kids, hk, hk', hc'⟩ := add_pages_result h
  obtain ⟨kids0, hk0, hc0⟩ := hinv
  have he : kids0 = kids := by
    rw [hk0] at hk
    injection hk
  subst he
  rw [hc0] at hc'
  refine ⟨kids0 ++ ids.map Object.reference, hk', ?_⟩
  rw [hc']
  congr 1
  push_cast
  simp

/-! ## Rotation arithmetic -/

theorem dictSet_dictSet_self (d : Dict) (k : String) (v w : Object) :
    dictSet (dictSet d k v) k w = dictSet d k w := by
  induction d with
  | nil => simp [dictSet]
  | cons kv rest ih =>
      obtain ⟨k', v'⟩ := kv
      by_cases h : k' = k
      · simp [dictSet, h]
      · simp [dictSet, h, ih]

theorem dictGet_rotatePage (d : Dict) (deg : Int) :
    dictGet (PageExtractor.rotatePageDict d deg) "Rotate" =
      some (.integer (Int.tmod (PageExtractor.rotateCurrent d + deg) 360)) := by
  rw [PageExtractor.rotatePageDict, dictGet_dictSet_self]

theorem rotateCurrent_rotatePage (d : Dict) (deg : Int) :
    PageExtractor.rotateCurrent (PageExtractor.rotatePageDict d deg) = Int.tmod (PageExtractor.rotateCurrent d + deg) 360 := by
  rw [PageExtractor.rotateCurrent, dictGet_rotatePage]
  simp [Object.asI64]

theorem tmod_emod_360 (a : Int) : Int.tmod a 360 % 360 = a % 360 := by
  rw [Int.tmod_def, Int.sub_emod, Int.mul_emod_right]
  simp [Int.emod_emod_of_dvd]

theorem tmod_double_90 {r : Int} (h : 0 ≤ r) :
    Int.tmod (Int.tmod (r + 90) 360 + 90) 360 = Int.tmod (r + 180) 360 := by
  have h1 : (0 : Int) ≤ r + 90 := by omega
  have h2 : (0 : Int) ≤ r + 180 := by omega
  rw [Int.tmod_eq_emod h1 (by norm_num)]
  have h3 : (0 : Int) ≤ (r + 90) % 360 + 90 := by
    have := Int.emod_nonneg (r + 90) (show (360 : Int) ≠ 0 by norm_num)
    omega
  rw [Int.tmod_eq_emod h3 (by norm_num), Int.tmod_eq_emod h2 (by norm_num),
    Int.emod_add_emod]
  norm_num [add_assoc]

theorem PageExtractor.rotatePageDict_90_90_eq_180 {d : Dict} (h : 0 ≤ PageExtractor.rotateCurrent d) :
    PageExtractor.rotatePageDict (PageExtractor.rotatePageDict d 90) 90 = PageExtractor.rotatePageDict d 180 := by
  have hstep : PageExtractor.rotatePageDict (PageExtractor.rotatePageDict d 90) 90 =
      dictSet (dictSet d "Rotate" (.integer (Int.tmod (PageExtractor.rotateCurrent d + 90) 360)))
        "Rotate"
        (.integer (Int.tmod (Int.tmod (PageExtractor.rotateCurrent d + 90) 360 + 90) 360)) := by
    rw [show PageExtractor.rotatePageDict (PageExtractor.rotatePageDict d 90) 90 =
        dictSet (PageExtractor.rotatePageDict d 90) "Rotate"
          (.integer (Int.tmod (PageExtractor.rotateCurrent (PageExtractor.rotatePageDict d 90) + 90) 360)) from rfl]
    rw [rotateCurrent_rotatePage]
    rfl
  rw [hstep, dictSet_dictSet_self, tmod_double_90 h]
  rfl

/-- The stored `Rotate` values of a double 90-degree rotation and of a
single 180-degree rotation always agree modulo 360, even when the
stored values themselves differ. -/
theorem PageExtractor.rotatePageDict_90_90_congruent_180 (d : Dict) :
    PageExtractor.rotateCurrent (PageExtractor.rotatePageDict (PageExtractor.rotatePageDict d 90) 90) % 360 =
      PageExtractor.rotateCurrent (PageExtractor.rotatePageDict d 180) % 360 := by
  rw [rotateCurrent_rotatePage, rotateCurrent_rotatePage,
    rotateCurrent_rotatePage]
  rw [tmod_emod_360, tmod_emod_360]
  rw [Int.add_emod (Int.tmod (PageExtractor.rotateCurrent d + 90) 360) 90 360,
    tmod_emod_360, ← Int.add_emod]
  ring_nf

/-! ## Outline construction -/

theorem getD_range_map {α : Type} (g : Nat → α) (n j : Nat) (d : α) :
    ((List.range n).map g).getD j d = if j < n then g j else d := by
  rw [List.getD_eq_getElem?_getD, List.getElem?_map]
  by_cases h : j < n
  · simp [List.getElem?_range, h]
  · rw [List.getElem?_eq_none (by simpa using Nat.le_of_not_lt h)]
    simp [h]

theorem insertOutlineItems_spec (oid : ObjectId) :
    ∀ (items : List (String × ObjectId)) (doc : Document),
      (insertOutlineItems oid doc items).2 =
        (List.range items.length).map (fun j => ((doc.maxId + 1 + j, 0) : ObjectId)) ∧
      (insertOutlineItems oid doc items).1.maxId = doc.maxId + items.length ∧
      (insertOutlineItems oid doc items).1.trailer = doc.trailer ∧
      (∀ j, j < items.length →
        (insertOutlineItems oid doc items).1.getObject (doc.maxId + 1 + j, 0) =
          some (.dictionary
            (itemDictBase (items.getD j ("", (0, 0))).1 oid
              (items.getD j ("", (0, 0))).2))) ∧
      (∀ id : ObjectId, id.1 ≤ doc.maxId →
        (insertOutlineItems oid doc items).1.getObject id = doc.getObject id) := by
  intro items
  induction items with
  | nil =>
      intro doc
      refine ⟨rfl, rfl, rfl, ?_, fun id _ => rfl⟩
      intro j hj
      simp at hj
  | cons it rest ih =>
      intro doc
      obtain ⟨title, pid⟩ := it
      set doc2 : Document :=
        { doc with
          maxId := doc.maxId + 1,
          objects := docInsert doc.objects (doc.maxId + 1, 0)
            (.dictionary (itemDictBase title oid pid)) } with hdoc2
      have hunfold : insertOutlineItems oid doc ((title, pid) :: rest) =
          ((insertOutlineItems oid doc2 rest).1,
            (doc.maxId + 1, 0) :: (insertOutlineItems oid doc2 rest).2) := rfl
      obtain ⟨hids, hmax, htr, hitems, hpres⟩ := ih doc2
      have hmax2 : doc2.maxId = doc.maxId + 1 := rfl
      refine ⟨?_, ?_, ?_, ?_, ?_⟩
      · rw [hunfold]
        show (doc.maxId + 1, 0) :: (insertOutlineItems oid doc2 rest).2 = _
        rw [hids, List.length_cons, List.range_succ_eq_map, List.map_cons, List.map_map]
        congr 1
        apply List.map_congr_left
        intro j _
        show ((doc2.maxId + 1 + j, 0) : ObjectId) = (doc.maxId + 1 + (j + 1), 0)
        rw [hmax2]
        congr 1
        omega
      · rw [hunfold]
        show (insertOutlineItems oid doc2 rest).1.maxId = _
        rw [hmax, hmax2, List.length_cons]
        omega
      · rw [hunfold]
        exact htr
      · intro j hj
        rw [hunfold]
        match j with
        | 0 =>
            show (insertOutlineItems oid doc2 rest).1.getObject (doc.maxId + 1 + 0, 0) = _
            rw [show doc.maxId + 1 + 0 = doc.maxId + 1 from rfl]
            rw [hpres (doc.maxId + 1, 0) (by rw [hmax2])]
            show docGet (docInsert doc.objects (doc.maxId + 1, 0) _) (doc.maxId + 1, 0) = _
            rw [docGet_docInsert_self]
            rfl
        | Nat.succ m =>
            have hm : m < rest.length := by
              have := hj
              simp at this
              omega
            have := hitems m hm
            rw [hmax2] at this
            rw [show doc.maxId + 1 + (m + 1) = doc.maxId + 1 + 1 + m by omega]
            rw [this]
            rfl
      · intro id hid
        rw [hunfold]
        show (insertOutlineItems oid doc2 rest).1.getObject id = _
        rw [hpres id (by rw [hmax2]; omega)]
        show docGet (docInsert doc.objects (doc.maxId + 1, 0) _) id = _
        rw [docGet_docInsert_ne]
        · rfl
        · intro he
          rw [← he] at hid
          simp at hid

theorem linkOutlineItem_eq {ids : List ObjectId} {S : Document} {i : Nat} {d : Dict}
    (h : S.getObject (ids.getD i (0, 0)) = some (.dictionary d)) :
    linkOutlineItem ids S i =
      S.setObject (ids.getD i (0, 0)) (.dictionary (linkedDict ids i d)) := by
  rw [linkOutlineItem]
  rw [h]

theorem linkFold_spec (ids : List ObjectId) (b : Nat → Dict)
    (hinj : ∀ i j, i < ids.length → j < ids.length →
      ids.getD i (0, 0) = ids.getD j (0, 0) → i = j) :
    ∀ (L : List Nat) (S : Document), L.Nodup → (∀ j ∈ L, j < ids.length) →
      (∀ j ∈ L, S.getObject (ids.getD j (0, 0)) = some (.dictionary (b j))) →
      (∀ j ∈ L, (L.foldl (linkOutlineItem ids) S).getObject (ids.getD j (0, 0)) =
          some (.dictionary (linkedDict ids j (b j)))) ∧
      (∀ id : ObjectId, (∀ j ∈ L, id ≠ ids.getD j (0, 0)) →
        (L.foldl (linkOutlineItem ids) S).getObject id = S.getObject id) ∧
      (L.foldl (linkOutlineItem ids) S).trailer = S.trailer := by
  intro L
  induction L with
  | nil =>
      intro S _ _ _
      exact ⟨fun j hj => absurd hj (List.not_mem_nil j), fun id _ => rfl, rfl⟩
  | cons i L ih =>
      intro S hnd hbound hvals
      have hiL : i < ids.length := hbound i (by simp)
      have hSi : S.getObject (ids.getD i (0, 0)) = some (.dictionary (b i)) :=
        hvals i (by simp)
      have hS1 : linkOutlineItem ids S i =
          S.setObject (ids.getD i (0, 0)) (.dictionary (linkedDict ids i (b i))) :=
        linkOutlineItem_eq hSi
      have hinotin : i ∉ L := (List.nodup_cons.mp hnd).1
      have hL1vals : ∀ j ∈ L,
          (linkOutlineItem ids S i).getObject (ids.getD j (0, 0)) =
            some (.dictionary (b j)) := by
        intro j hj
        have hjlt : j < ids.length := hbound j (by simp [hj])
        have hne : ids.getD j (0, 0) ≠ ids.getD i (0, 0) := by
          intro he
          exact hinotin ((hinj j i hjlt hiL he) ▸ hj)
        rw [hS1]
        show docGet (docInsert S.objects (ids.getD i (0, 0)) _) (ids.getD j (0, 0)) = _
        rw [docGet_docInsert_ne (fun he => hne he.symm)]
        exact hvals j (by simp [hj])
      obtain ⟨hf1, hf2, hfTr⟩ := ih (linkOutlineItem ids S i) (List.nodup_cons.mp hnd).2
        (fun j hj => hbound j (by simp [hj])) hL1vals
      have hfold : (i :: L).foldl (linkOutlineItem ids) S =
          L.foldl (linkOutlineItem ids) (linkOutlineItem ids S i) := rfl
      refine ⟨?_, ?_, ?_⟩
      · intro j hj
        rcases List.mem_cons.mp hj with hj | hj
        · subst hj
          rw [hfold]
          rw [hf2 (ids.getD j (0, 0)) ?_]
          · rw [hS1]
            show docGet (docInsert S.objects (ids.getD j (0, 0)) _) (ids.getD j (0, 0)) = _
            rw [docGet_docInsert_self]
          · intro j2 hj2 he
            have hj2lt : j2 < ids.length := hbound j2 (by simp [hj2])
            exact hinotin ((hinj j j2 hiL hj2lt he) ▸ hj2)
        · rw [hfold]
          exact hf1 j hj
      · intro id hid
        rw [hfold, hf2 id (fun j hj => hid j (by simp [hj]))]
        rw [hS1]
        show docGet (docInsert S.objects (ids.getD i (0, 0)) _) id = _
        rw [docGet_docInsert_ne (fun he => hid i (by simp) he.symm)]
        rfl
      · rw [hfold, hfTr, hS1]
        rfl

theorem create_outline_structure_eq (doc : Document) (items : List (String × ObjectId)) :
    BookmarkManager.create_outline_structure doc items =
      (let oid : ObjectId := (doc.maxId + 1, 0)
       let res := insertOutlineItems oid { doc with maxId := doc.maxId + 1 } items
       let docL := linkOutlineItems res.1 res.2
       let docR := docL.setObject oid (.dictionary (outlineDictOf res.2))
       match docR.rootId with
       | some rid =>
           match docR.getObject rid with
           | some (.dictionary cat) =>
               .ok (docR.setObject rid (.dictionary (dictSet cat "Outlines" (.reference oid))))
           | _ => .error (.bookmarkFailed "Failed to get catalog")
       | none => .error (.bookmarkFailed "Failed to get catalog")) := rfl

theorem create_outline_structure_spec {doc : Document} {items : List (String × ObjectId)}
    (hne : items ≠ []) {rid : ObjectId} {cat : Dict}
    (hroot : dictGet doc.trailer "Root" = some (.reference rid))
    (hcat : doc.getObject rid = some (.dictionary cat))
    (hbound : rid.1 ≤ doc.maxId) :
    ∃ doc',
      BookmarkManager.create_outline_structure doc items = .ok doc' ∧
      (∀ j, j < items.length →
        doc'.getObject (doc.maxId + 2 + j, 0) =
          some (.dictionary (linkedDict
            ((List.range items.length).map (fun i => ((doc.maxId + 2 + i, 0) : ObjectId))) j
            (itemDictBase (items.getD j ("", (0, 0))).1 (doc.maxId + 1, 0)
              (items.getD j ("", (0, 0))).2)))) ∧
      doc'.getObject (doc.maxId + 1, 0) =
        some (.dictionary
          [("Type", .name "Outlines"), ("Count", .integer (items.length : Int)),
           ("First", .reference (doc.maxId + 2, 0)),
           ("Last", .reference (doc.maxId + 2 + (items.length - 1), 0))]) ∧
      doc'.getObject rid =
        some (.dictionary (dictSet cat "Outlines" (.reference (doc.maxId + 1, 0)))) ∧
      dictGet doc'.trailer "Root" = some (.reference rid) := by
  classical
  set n := items.length with hn
  have hnpos : 0 < n := by
    rw [hn]
    exact List.length_pos.mpr hne
  set oid : ObjectId := (doc.maxId + 1, 0) with hoid
  set doc1 : Document := { doc with maxId := doc.maxId + 1 } with hdoc1
  obtain ⟨hids, hmaxI, htrI, hitemsI, hpresI⟩ := insertOutlineItems_spec oid items doc1
  set res := insertOutlineItems oid doc1 items with hres
  have hidsE : res.2 = (List.range n).map (fun j => ((doc.maxId + 2 + j, 0) : ObjectId)) := by
    rw [hids]
  have hlenIds : res.2.length = n := by
    rw [hidsE, List.length_map, List.length_range]
  have hgetD : ∀ j, j < n → res.2.getD j (0, 0) = (doc.maxId + 2 + j, 0) := by
    intro j hj
    rw [hidsE, getD_range_map, if_pos hj]
  have hinj : ∀ i j, i < res.2.length → j < res.2.length →
      res.2.getD i (0, 0) = res.2.getD j (0, 0) → i = j := by
    intro i j hi hj he
    rw [hlenIds] at hi hj
    rw [hgetD i hi, hgetD j hj] at he
    have := congrArg Prod.fst he
    simpa using this
  set b : Nat → Dict := fun j =>
    itemDictBase (items.getD j ("", (0, 0))).1 oid (items.getD j ("", (0, 0))).2 with hb
  have hvals : ∀ j ∈ List.range res.2.length,
      res.1.getObject (res.2.getD j (0, 0)) = some (.dictionary (b j)) := by
    intro j hj
    have hjn : j < n := by
      rw [← hlenIds]
      exact List.mem_range.mp hj
    rw [hgetD j hjn]
    have := hitemsI j (by rw [← hn]; exact hjn)
    rw [show ((doc1.maxId + 1 + j, 0) : ObjectId) = (doc.maxId + 2 + j, 0) from by
      rw [hdoc1]] at this
    exact this
  obtain ⟨hf1, hf2, hfTr⟩ := linkFold_spec res.2 b hinj (List.range res.2.length) res.1
    (List.nodup_range _) (fun j hj => List.mem_range.mp hj) hvals
  set docL := linkOutlineItems res.1 res.2 with hdocL
  have hdocLfold : docL = (List.range res.2.length).foldl (linkOutlineItem res.2) res.1 := rfl
  have hLitems : ∀ j, j < n → docL.getObject (doc.maxId + 2 + j, 0) =
      some (.dictionary (linkedDict res.2 j (b j))) := by
    intro j hj
    rw [hdocLfold, ← hgetD j hj]
    exact hf1 j (List.mem_range.mpr (by rw [hlenIds]; exact hj))
  have hLrid : docL.getObject rid = some (.dictionary cat) := by
    rw [hdocLfold, hf2]
    · rw [hpresI rid (by show rid.1 ≤ doc.maxId + 1; omega)]
      exact hcat
    · intro j hj he
      have hjn : j < n := by rw [← hlenIds]; exact List.mem_range.mp hj
      rw [hgetD j hjn] at he
      have := congrArg Prod.fst he
      simp at this
      omega
  have hLtr : docL.trailer = doc.trailer := by
    rw [hdocLfold, hfTr, htrI, hdoc1]
  have hood : outlineDictOf res.2 =
      [("Type", .name "Outlines"), ("Count", .integer (n : Int)),
       ("First", .reference (doc.maxId + 2, 0)),
       ("Last", .reference (doc.maxId + 2 + (n - 1), 0))] := by
    have hemp : res.2.isEmpty = false := by
      rw [List.isEmpty_eq_false]
      intro h0
      rw [h0] at hlenIds
      simp at hlenIds
      omega
    have hhead : res.2.headD (0, 0) = (doc.maxId + 2, 0) := by
      rw [hidsE]
      match n, hnpos with
      | Nat.succ m, _ =>
          rw [List.range_succ_eq_map, List.map_cons]
          rfl
    have hlast : res.2.getLastD (0, 0) = (doc.maxId + 2 + (n - 1), 0) := by
      rw [List.getLastD_eq_getLast?, List.getLast?_eq_getElem?, hidsE]
      rw [List.length_map, List.length_range, List.getElem?_map]
      rw [List.getElem?_range (by omega : n - 1 < n)]
      rfl
    rw [outlineDictOf, hemp]
    simp only [Bool.false_eq_true, if_false]
    rw [hhead, hlast, hlenIds]
    rfl
  set docR := docL.setObject oid (.dictionary (outlineDictOf res.2)) with hdocR
  have hRtr : docR.trailer = doc.trailer := by
    rw [hdocR]
    exact hLtr
  have hRroot : docR.rootId = some rid := by
    rw [Document.rootId, hRtr, hroot]
  have hRrid : docR.getObject rid = some (.dictionary cat) := by
    rw [hdocR]
    show docGet (docInsert docL.objects oid _) rid = _
    rw [docGet_docInsert_ne (by
      intro he
      rw [hoid] at he
      have := congrArg Prod.fst he
      simp at this
      omega)]
    exact hLrid
  have heq : BookmarkManager.create_outline_structure doc items =
      .ok (docR.setObject rid (.dictionary (dictSet cat "Outlines" (.reference oid)))) := by
    rw [create_outline_structure_eq]
    show ((match docR.rootId with
       | some rid' =>
           match docR.getObject rid' with
           | some (Object.dictionary cat') =>
               Except.ok (docR.setObject rid'
                 (Object.dictionary (dictSet cat' "Outlines" (Object.reference oid))))
           | _ => Except.error (PdfCatError.bookmarkFailed "Failed to get catalog")
       | none => Except.error (PdfCatError.bookmarkFailed "Failed to get catalog")) :
         Except PdfCatError Document) = _
    rw [hRroot]
    show ((match docR.getObject rid with
       | some (Object.dictionary cat') =>
           Except.ok (docR.setObject rid
             (Object.dictionary (dictSet cat' "Outlines" (Object.reference oid))))
       | _ => Except.error (PdfCatError.bookmarkFailed "Failed to get catalog")) :
         Except PdfCatError Document) = _
    rw [hRrid]
  set final := docR.setObject rid (.dictionary (dictSet cat "Outlines" (.reference oid)))
    with hfinal
  have hridne2 : ∀ j, j < n → rid ≠ ((doc.maxId + 2 + j, 0) : ObjectId) := by
    intro j hj he
    have := congrArg Prod.fst he
    simp at this
    omega
  have hridneO : rid ≠ oid := by
    intro he
    rw [hoid] at he
    have := congrArg Prod.fst he
    simp at this
    omega
  refine ⟨final, heq, ?_, ?_, ?_, ?_⟩
  · intro j hj
    rw [hfinal]
    show docGet (docInsert docR.objects rid _) (doc.maxId + 2 + j, 0) = _
    rw [docGet_docInsert_ne (hridne2 j hj)]
    rw [hdocR]
    show docGet (docInsert docL.objects oid _) (doc.maxId + 2 + j, 0) = _
    rw [docGet_docInsert_ne (by
      intro he
      rw [hoid] at he
      have := congrArg Prod.fst he
      simp at this
      omega)]
    show docL.getObject (doc.maxId + 2 + j, 0) = _
    rw [hLitems j hj]
    rw [hidsE]
  · rw [hfinal]
    show docGet (docInsert docR.objects rid _) (doc.maxId + 1, 0) = _
    rw [docGet_docInsert_ne (by rw [hoid] at hridneO; exact hridneO)]
    rw [hdocR]
    show docGet (docInsert docL.objects oid _) oid = _
    rw [docGet_docInsert_self, hood]
  · rw [hfinal]
    show docGet (docInsert docR.objects rid _) rid = _
    rw [docGet_docInsert_self]
  · rw [hfinal]
    show dictGet docR.trailer "Root" = _
    rw [hRtr, hroot]

/-! ## Item collection and bookmark entry -/

theorem collectOutlineItems_getD (pages : List ObjectId) (ppf : Nat) :
    ∀ (paths : List String) (k j : Nat),
      j < (collectOutlineItems pages ppf k paths).length →
      (collectOutlineItems pages ppf k paths).getD j ("", (0, 0)) =
        (fileNameOf (paths.getD j ""), pages.getD ((k + j) * ppf) (0, 0)) ∧
      (k + j) * ppf < pages.length := by
  intro paths
  induction paths with
  | nil =>
      intro k j hj
      simp [collectOutlineItems] at hj
  | cons path rest ih =>
      intro k j hj
      cases hp : pages.get? (k * ppf) with
      | none =>
          rw [collectOutlineItems, hp] at hj
          simp at hj
      | some pid =>
          have hcons : collectOutlineItems pages ppf k (path :: rest) =
              (fileNameOf path, pid) :: collectOutlineItems pages ppf (k + 1) rest := by
            rw [collectOutlineItems, hp]
          have hlt : k * ppf < pages.length := by
            rcases List.get?_eq_some.mp hp with ⟨hh, _⟩
            exact hh
          have hgd : pages.getD (k * ppf) (0, 0) = pid := by
            rw [List.getD_eq_getElem?_getD, ← List.get?_eq_getElem?, hp]
            rfl
          match j with
          | 0 =>
              rw [hcons]
              refine ⟨?_, by simpa using hlt⟩
              simp only [List.getD_cons_zero]
              rw [show (k + 0) * ppf = k * ppf by ring, hgd]
          | Nat.succ m =>
              rw [hcons] at hj
              have hm : m < (collectOutlineItems pages ppf (k + 1) rest).length := by
                simpa using hj
              obtain ⟨ih1, ih2⟩ := ih (k + 1) m hm
              rw [hcons]
              simp only [List.getD_cons_succ]
              refine ⟨?_, by rw [show (k + (m + 1)) * ppf = (k + 1 + m) * ppf by ring]; exact ih2⟩
              rw [ih1, show (k + 1 + m) * ppf = (k + (m + 1)) * ppf by ring]

theorem collectOutlineItems_ne_nil {pages : List ObjectId} (ppf : Nat) {p : String}
    (rest : List String) (hpg : pages ≠ []) :
    collectOutlineItems pages ppf 0 (p :: rest) ≠ [] := by
  match pages, hpg with
  | a :: pagesTail, _ =>
      rw [collectOutlineItems]
      rw [show (0 * ppf) = 0 by ring]
      simp

theorem add_bookmarks_eq_create {doc : Document} {paths : List String}
    (hp : paths ≠ []) (hpg : doc.pageIds ≠ []) :
    BookmarkManager.add_bookmarks_for_files doc paths =
      BookmarkManager.create_outline_structure doc
        (collectOutlineItems doc.pageIds
          (if paths.length > 1 then doc.pageIds.length / paths.length
           else doc.pageIds.length) 0 paths) := by
  match paths, hp with
  | p :: rest, _ =>
      have hitems := @collectOutlineItems_ne_nil doc.pageIds
        (if (p :: rest).length > 1 then doc.pageIds.length / (p :: rest).length
         else doc.pageIds.length) p rest hpg
      rw [BookmarkManager.add_bookmarks_for_files]
      rw [show (p :: rest).isEmpty = false from rfl]
      simp only [Bool.false_eq_true, if_false]
      rw [show doc.pageIds.isEmpty = false from by
        rw [List.isEmpty_eq_false]; exact hpg]
      simp only [Bool.false_eq_true, if_false]
      rw [show (collectOutlineItems doc.pageIds
          (if (p :: rest).length > 1 then doc.pageIds.length / (p :: rest).length
           else doc.pageIds.length) 0 (p :: rest)).isEmpty = false from by
        rw [List.isEmpty_eq_false]; exact hitems]
      simp only [Bool.false_eq_true, if_false]

/-! ## Lookups through the linking transformation -/

theorem linkedDict_get_other (ids : List ObjectId) (j : Nat) (d : Dict) (k : String)
    (h1 : k ≠ "Prev") (h2 : k ≠ "Next") :
    dictGet (linkedDict ids j d) k = dictGet d k := by
  rw [linkedDict]
  by_cases hj : 0 < j <;> by_cases hj2 : j < ids.length - 1
  · simp only [hj, hj2, if_true, gt_iff_lt]
    rw [dictGet_dictSet_ne (fun he => h2 he.symm),
      dictGet_dictSet_ne (fun he => h1 he.symm)]
  · simp only [hj, hj2, if_true, if_false, gt_iff_lt]
    rw [dictGet_dictSet_ne (fun he => h1 he.symm)]
  · simp only [hj, hj2, if_true, if_false, gt_iff_lt]
    rw [dictGet_dictSet_ne (fun he => h2 he.symm)]
  · simp only [hj, hj2, if_false, gt_iff_lt]

theorem linkedDict_get_prev (ids : List ObjectId) (j : Nat) (d : Dict) :
    dictGet (linkedDict ids j d) "Prev" =
      (if 0 < j then some (.reference (ids.getD (j - 1) (0, 0))) else dictGet d "Prev") := by
  rw [linkedDict]
  by_cases hj : 0 < j <;> by_cases hj2 : j < ids.length - 1
  · simp only [hj, hj2, if_true, gt_iff_lt]
    rw [dictGet_dictSet_ne (show ("Next" : String) ≠ "Prev" by decide), dictGet_dictSet_self]
  · simp only [hj, hj2, if_true, if_false, gt_iff_lt]
    rw [dictGet_dictSet_self]
  · simp only [hj, hj2, if_true, if_false, gt_iff_lt]
    rw [dictGet_dictSet_ne (show ("Next" : String) ≠ "Prev" by decide)]
  · simp only [hj, hj2, if_false, gt_iff_lt]

theorem linkedDict_get_next (ids : List ObjectId) (j : Nat) (d : Dict) :
    dictGet (linkedDict ids j d) "Next" =
      (if j < ids.length - 1 then some (.reference (ids.getD (j + 1) (0, 0)))
       else dictGet d "Next") := by
  rw [linkedDict]
  by_cases hj : 0 < j <;> by_cases hj2 : j < ids.length - 1
  · simp only [hj, hj2, if_true, gt_iff_lt]
    rw [dictGet_dictSet_self]
  · simp only [hj, hj2, if_true, if_false, gt_iff_lt]
    rw [dictGet_dictSet_ne (show ("Prev" : String) ≠ "Next" by decide)]
  · simp only [hj, hj2, if_true, if_false, gt_iff_lt]
    rw [dictGet_dictSet_self]
  · simp only [hj, hj2, if_false, gt_iff_lt]

/-! ## Claim theorems -/

/-- C1 (code bug): the spec demands that a requested page number
outside `[1, max_pages]` make `extract_pages` fail with
`InvalidPageRange`, and in particular that range "1-1000" against a
5-page document fail with `InvalidPageRange{total=5}`.  The code
instead clamps the selection in `PageRange::to_pages` (which only
enumerates `1..=max_pages`), so the out-of-range check in
`extract_pages` is unreachable: the call succeeds and returns all 5
pages, and no error of any kind is produced. -/
theorem C1_extract_out_of_range_succeeds :
    PageRange.parse "1-1000" = some ⟨[PageRangeItem.span 1 1000]⟩ ∧
    (sampleDoc 5).pageIds.length = 5 ∧
    ∃ doc', PageExtractor.extract_pages (sampleDoc 5) ⟨[PageRangeItem.span 1 1000]⟩ =
        Except.ok doc' ∧
      doc'.pageIds.length = 5 ∧
      ∀ e : PdfCatError, PageExtractor.extract_pages (sampleDoc 5)
          ⟨[PageRangeItem.span 1 1000]⟩ ≠ Except.error e := by
  refine ⟨rfl, rfl, _, rfl, rfl, ?_⟩
  intro e h
  rw [show PageExtractor.extract_pages (sampleDoc 5) ⟨[PageRangeItem.span 1 1000]⟩ =
    Except.ok _ from rfl] at h
  exact Except.noConfusion h

/-- C2 (code bug): the spec (and `load_parallel`'s own doc comment)
promise results in original input order for every worker count and
completion order.  `load_parallel` collects a `buffer_unordered`
stream without the index tagging and re-sort that `load_with_progress`
performs, so for a 4-path batch (above the sequential threshold of 3)
whose first two tasks complete in swapped order, `load_all` returns
the results in completion order: one result per path, but not in
input order. -/
theorem C2_load_results_completion_order :
    PdfReader.load_all (fun s => s) ["a.pdf", "b.pdf", "c.pdf", "d.pdf"] 2 [1, 0, 2, 3] =
      ["b.pdf", "a.pdf", "c.pdf", "d.pdf"] ∧
    ([1, 0, 2, 3] : List Nat).Perm (List.range 4) ∧
    (PdfReader.load_all (fun s => s) ["a.pdf", "b.pdf", "c.pdf", "d.pdf"] 2
      [1, 0, 2, 3]).length = 4 ∧
    PdfReader.load_all (fun s => s) ["a.pdf", "b.pdf", "c.pdf", "d.pdf"] 2 [1, 0, 2, 3] ≠
      ["a.pdf", "b.pdf", "c.pdf", "d.pdf"].map (fun s => s) := by
  refine ⟨rfl, by decide, rfl, by decide⟩

/-- C3 (confirmed): merging `n` sources that all load successfully,
with no page range and no rotation (and the remaining pipeline stages
quiescent: no bookmarks, empty metadata, no compression), succeeds and
produces a document whose page count is the sum of the sources' page
counts, with `files_merged = n`; a single source is a page-count
identity as the instance `n = 1`. -/
theorem C3_merge_page_count_sum {config : Config}
    (h1 : config.page_range = none) (h2 : config.rotation = none)
    (h3 : config.bookmarks = false) (h4 : config.metadata.isEmpty = true)
    (h5 : config.compression = .levelNone)
    {loaded_pdfs : List LoadedPdf} (hne : loaded_pdfs ≠ [])
    (hwf : ∀ l ∈ loaded_pdfs, wfDoc l.document = true) (now : String) :
    ∃ res, Merger.merge (loaded_pdfs.map Except.ok) config now = Except.ok res ∧
      res.statistics.files_merged = loaded_pdfs.length ∧
      res.document.pageIds.length =
        (loaded_pdfs.map (fun l => l.document.pageIds.length)).sum ∧
      res.statistics.total_pages =
        (loaded_pdfs.map (fun l => l.document.pageIds.length)).sum := by
  have hcoll : Merger.collectLoaded config.continue_on_error (loaded_pdfs.map Except.ok) =
      .ok loaded_pdfs := collectLoaded_all_ok _ _
  obtain ⟨res, hm, hf, hd, ht, _⟩ := merge_ok_of_collect h1 h2 h3 h4 h5 hcoll hne hwf now
  exact ⟨res, hm, hf, hd, ht⟩

/-- Witness for C3 at two concrete fixtures of 2 and 3 pages. -/
theorem C3_merge_page_count_sum_witness :
    plainConfig.page_range = none ∧ plainConfig.rotation = none ∧
    plainConfig.bookmarks = false ∧ plainConfig.metadata.isEmpty = true ∧
    plainConfig.compression = .levelNone ∧
    ([sampleLoaded 2 "a.pdf", sampleLoaded 3 "b.pdf"] : List LoadedPdf) ≠ [] ∧
    (∀ l ∈ [sampleLoaded 2 "a.pdf", sampleLoaded 3 "b.pdf"], wfDoc l.document = true) ∧
    ∃ res, Merger.merge ([sampleLoaded 2 "a.pdf", sampleLoaded 3 "b.pdf"].map Except.ok)
        plainConfig "D:20240101000000Z" = Except.ok res ∧
      res.statistics.files_merged = 2 ∧ res.statistics.total_pages = 5 := by
  refine ⟨rfl, rfl, rfl, rfl, rfl, by simp, by decide, ?_⟩
  obtain ⟨res, hm, hf, _, ht⟩ := @C3_merge_page_count_sum plainConfig rfl rfl rfl rfl rfl
    [sampleLoaded 2 "a.pdf", sampleLoaded 3 "b.pdf"] (by simp) (by decide)
    "D:20240101000000Z"
  refine ⟨res, hm, hf, ?_⟩
  rw [ht]
  rfl

/-- C4 counterexample: splicing one page into a base whose Pages
dictionary has a one-element Kids array but no Count entry succeeds
and leaves Count = 1 while Kids has 2 entries, so "after every such
call the invariant Count == len(Kids) holds" is false as stated. -/
theorem C4_counterexample_missing_count :
    ∃ d', Merger.add_pages_to_tree noCountDoc [(4, 0)] = Except.ok d' ∧
      docCount d' = some 1 ∧
      (kidsList d').map List.length = some 2 ∧
      ¬ countMatchesKids d' := by
  refine ⟨_, rfl, rfl, rfl, ?_⟩
  intro hcm
  obtain ⟨kids, hk, hc⟩ := hcm
  have h2 : (some 2 : Option Nat) = some kids.length :=
    congrArg (Option.map List.length) hk
  have h1 : (some (1 : Int) : Option Int) = some ((kids.length : Nat) : Int) := hc
  injection h2 with h2'
  injection h1 with h1'
  omega

/-- C4 (amended): a successful splice appends the given page
identifiers in order to Kids and sets Count to `old_count + len`,
where `old_count` is the existing integer Count (0 when missing or
not an integer); the invariant Count == len(Kids) holds after the
splice provided it held before the call, and every successful
extraction rewrite establishes it unconditionally. -/
theorem C4_splice_append_and_count {merged : Document} {ids : List ObjectId}
    {merged' : Document} (h : Merger.add_pages_to_tree merged ids = Except.ok merged') :
    (∃ kids, kidsList merged = some kids ∧
      kidsList merged' = some (kids ++ ids.map Object.reference) ∧
      docCount merged' = some ((match docCount merged with
        | some c => c
        | none => 0) + (ids.length : Int))) ∧
    (countMatchesKids merged → countMatchesKids merged') ∧
    (∀ (doc : Document) (pr : PageRange) (doc' : Document),
      PageExtractor.extract_pages doc pr = Except.ok doc' → countMatchesKids doc') := by
  refine ⟨add_pages_result h, fun hinv => splice_preserves_count_invariant hinv h, ?_⟩
  intro doc pr doc' he
  exact (extract_pages_result he).2.2.2

/-- Witness for C4 at a well-formed 2-page fixture. -/
theorem C4_splice_append_and_count_witness :
    ∃ d', Merger.add_pages_to_tree (sampleDoc 2) [(5, 0)] = Except.ok d' ∧
      ((∃ kids, kidsList (sampleDoc 2) = some kids ∧
        kidsList d' = some (kids ++ [((5 : Nat), (0 : Nat))].map Object.reference) ∧
        docCount d' = some ((match docCount (sampleDoc 2) with
          | some c => c
          | none => 0) + (([((5 : Nat), (0 : Nat))] : List ObjectId).length : Int))) ∧
      (countMatchesKids (sampleDoc 2) → countMatchesKids d') ∧
      (∀ (doc : Document) (pr : PageRange) (doc' : Document),
        PageExtractor.extract_pages doc pr = Except.ok doc' → countMatchesKids doc')) :=
  ⟨_, rfl, C4_splice_append_and_count rfl⟩

/-- C5 (confirmed): with continue-on-error enabled (and the quiescent
merge options), a batch whose surviving sources are nonempty merges
successfully with `files_merged = n - k` (`n` inputs, `k` load
failures), and a batch in which every source failed (no survivors)
fails with `NoFilesToMerge`. -/
theorem C5_continue_on_error {config : Config}
    (hco : config.continue_on_error = true)
    (h1 : config.page_range = none) (h2 : config.rotation = none)
    (h3 : config.bookmarks = false) (h4 : config.metadata.isEmpty = true)
    (h5 : config.compression = .levelNone)
    (results : List (Except PdfCatError LoadedPdf)) (now : String)
    (hwf : ∀ l ∈ results.filterMap Except.toOption, wfDoc l.document = true) :
    (results.filterMap Except.toOption ≠ [] →
      ∃ res, Merger.merge results config now = Except.ok res ∧
        res.statistics.files_merged =
          results.length -
            (results.filter (fun r => (Except.toOption r).isNone)).length) ∧
    (results.filterMap Except.toOption = [] →
      Merger.merge results config now = Except.error PdfCatError.noFilesToMerge) := by
  have hcoll : Merger.collectLoaded config.continue_on_error results =
      .ok (results.filterMap Except.toOption) := by
    rw [hco]
    exact collectLoaded_continue results
  constructor
  · intro hne
    obtain ⟨res, hm, hf, _, _, _⟩ := merge_ok_of_collect h1 h2 h3 h4 h5 hcoll hne hwf now
    refine ⟨res, hm, ?_⟩
    rw [hf]
    have := length_filterMap_toOption_add_failures results
    omega
  · intro he
    rw [he] at hcoll
    exact merge_error_of_empty hcoll now

/-- Witness for C5: three inputs of which one fails (success branch
with `files_merged = 2`), and a batch in which every input fails
(`NoFilesToMerge` branch). -/
theorem C5_continue_on_error_witness :
    coConfig.continue_on_error = true ∧
    ∃ res, Merger.merge
        [Except.ok (sampleLoaded 2 "a.pdf"),
         Except.error (PdfCatError.loadFailed "b.pdf" "corrupted"),
         Except.ok (sampleLoaded 1 "c.pdf")]
        coConfig "D:20240101000000Z" = Except.ok res ∧
      res.statistics.files_merged = 2 ∧
      Merger.merge
        [Except.error (PdfCatError.loadFailed "a.pdf" "corrupted"),
         Except.error (PdfCatError.loadFailed "b.pdf" "corrupted")]
        coConfig "D:20240101000000Z" = Except.error PdfCatError.noFilesToMerge := by
  refine ⟨rfl, ?_⟩
  obtain ⟨hsucc, hfail⟩ := @C5_continue_on_error coConfig rfl rfl rfl rfl rfl rfl
    [Except.ok (sampleLoaded 2 "a.pdf"),
     Except.error (PdfCatError.loadFailed "b.pdf" "corrupted"),
     Except.ok (sampleLoaded 1 "c.pdf")]
    "D:20240101000000Z" (by decide)
  obtain ⟨res, hm, hf⟩ := hsucc (List.cons_ne_nil _ _)
  refine ⟨res, hm, ?_, ?_⟩
  · rw [hf]
    rfl
  · obtain ⟨_, hfail2⟩ := @C5_continue_on_error coConfig rfl rfl rfl rfl rfl rfl
      [Except.error (PdfCatError.loadFailed "a.pdf" "corrupted"),
       Except.error (PdfCatError.loadFailed "b.pdf" "corrupted")]
      "D:20240101000000Z" (by decide)
    exact hfail2 rfl

/-- C6 (confirmed): the computed page selection is strictly ascending
(hence deduplicated and sorted); a successful extraction replaces the
page enumeration with exactly the selected pages' identifiers in
ascending page-number order and sets Count to their number; and
extracting "1-2" from the 5-page fixture yields, in order, original
pages 1 and 2. -/
theorem C6_selection_sorted_extraction :
    (∀ (pr : PageRange) (maxPages : Nat),
      List.Pairwise (· < ·) (pr.to_pages maxPages)) ∧
    (∀ (doc : Document) (pr : PageRange) (doc' : Document),
      PageExtractor.extract_pages doc pr = Except.ok doc' →
        doc'.pageIds =
          (pr.to_pages doc.pageIds.length).filterMap (pageLookup doc.pageIds) ∧
        doc'.pageIds.length = (pr.to_pages doc.pageIds.length).length ∧
        docCount doc' = some ((pr.to_pages doc.pageIds.length).length : Int)) ∧
    (PageRange.parse "1-2" = some ⟨[PageRangeItem.span 1 2]⟩ ∧
      ∃ doc2, PageExtractor.extract_pages (sampleDoc 5) ⟨[PageRangeItem.span 1 2]⟩ =
          Except.ok doc2 ∧
        doc2.pageIds = [(3, 0), (4, 0)] ∧
        (sampleDoc 5).pageIds.take 2 = [(3, 0), (4, 0)]) := by
  refine ⟨to_pages_pairwise_lt, ?_, rfl, _, rfl, rfl, rfl⟩
  intro doc pr doc' h
  obtain ⟨ha, hb, hc, _⟩ := extract_pages_result h
  exact ⟨ha, hb, hc⟩

/-- Witness for C6 applying the extraction clause at the "1-2" of 5
pages instance. -/
theorem C6_selection_sorted_extraction_witness :
    ∃ doc2, PageExtractor.extract_pages (sampleDoc 5) ⟨[PageRangeItem.span 1 2]⟩ =
        Except.ok doc2 ∧
      doc2.pageIds = ((PageRange.mk [PageRangeItem.span 1 2]).to_pages
        (sampleDoc 5).pageIds.length).filterMap (pageLookup (sampleDoc 5).pageIds) ∧
      doc2.pageIds.length = ((PageRange.mk [PageRangeItem.span 1 2]).to_pages
        (sampleDoc 5).pageIds.length).length ∧
      docCount doc2 = some (((PageRange.mk [PageRangeItem.span 1 2]).to_pages
        (sampleDoc 5).pageIds.length).length : Int) :=
  ⟨_, rfl, C6_selection_sorted_extraction.2.1 (sampleDoc 5) ⟨[PageRangeItem.span 1 2]⟩ _ rfl⟩

/-- C7 counterexample: with the pathological existing rotation
`Rotate -450`, rotating twice by 90 degrees stores `Rotate 90` while
rotating once by 180 degrees stores `Rotate -270`: Rust's `%` is a
truncated remainder, so the two stored values differ (they agree only
modulo 360), refuting "the same final Rotate value ... for all
integer r". -/
theorem C7_counterexample_negative_rotation :
    ∃ d1 d2 d3,
      PageExtractor.rotate_all_pages negRotDoc Rotation.clockwise90 = Except.ok d1 ∧
      PageExtractor.rotate_all_pages d1 Rotation.clockwise90 = Except.ok d2 ∧
      PageExtractor.rotate_all_pages negRotDoc Rotation.rotate180 = Except.ok d3 ∧
      (match d2.getObject (3, 0) with
       | some (.dictionary pd) => (dictGet pd "Rotate").bind Object.asI64
       | _ => none) = some 90 ∧
      (match d3.getObject (3, 0) with
       | some (.dictionary pd) => (dictGet pd "Rotate").bind Object.asI64
       | _ => none) = some (-270) ∧
      (90 : Int) ≠ -270 := by
  refine ⟨_, _, _, rfl, rfl, rfl, rfl, rfl, by decide⟩

/-- C7 (amended): `rotate_page` writes back `(r + d) % 360` with
Rust's truncated remainder; applying 90 degrees twice stores the same
final Rotate value as applying 180 degrees once for every nonnegative
existing rotation `r` (in particular all legal PDF values), and for
every integer `r` the two stored values agree modulo 360, though the
stored representatives can differ for negative `r`. -/
theorem C7_rotation_mod_360 :
    (∀ (d : Dict) (deg : Int),
      dictGet (PageExtractor.rotatePageDict d deg) "Rotate" =
        some (.integer (Int.tmod (PageExtractor.rotateCurrent d + deg) 360))) ∧
    (∀ d : Dict, 0 ≤ PageExtractor.rotateCurrent d →
      PageExtractor.rotatePageDict (PageExtractor.rotatePageDict d 90) 90 =
        PageExtractor.rotatePageDict d 180) ∧
    (∀ d : Dict,
      PageExtractor.rotateCurrent
          (PageExtractor.rotatePageDict (PageExtractor.rotatePageDict d 90) 90) % 360 =
        PageExtractor.rotateCurrent (PageExtractor.rotatePageDict d 180) % 360) :=
  ⟨dictGet_rotatePage, fun _ h => PageExtractor.rotatePageDict_90_90_eq_180 h,
    PageExtractor.rotatePageDict_90_90_congruent_180⟩

/-- Witness for C7 at an existing rotation of 90 degrees. -/
theorem C7_rotation_mod_360_witness :
    (0 : Int) ≤ PageExtractor.rotateCurrent [("Rotate", Object.integer 90)] ∧
    PageExtractor.rotatePageDict
        (PageExtractor.rotatePageDict [("Rotate", Object.integer 90)] 90) 90 =
      PageExtractor.rotatePageDict [("Rotate", Object.integer 90)] 180 :=
  ⟨by decide, C7_rotation_mod_360.2.1 [("Rotate", Object.integer 90)] (by decide)⟩

/-- C10 (confirmed): when the base Pages dictionary has a Kids array
but its Count entry is missing or not an integer, the splice still
succeeds, treating the old count as 0 and setting Count to
`0 + len(new_page_ids)`; a malformed Count is never reported as an
error, and after such a call Count == len(Kids) need not hold (shown
at the concrete one-kid fixture). -/
theorem C10_missing_count_tolerated {merged : Document} {rid pid : ObjectId}
    {cat pd : Dict} {kids : List Object} (ids : List ObjectId)
    (hroot : dictGet merged.trailer "Root" = some (.reference rid))
    (hcat : merged.getObject rid = some (.dictionary cat))
    (href : dictGet cat "Pages" = some (.reference pid))
    (hpd : merged.getObject pid = some (.dictionary pd))
    (hkids : dictGet pd "Kids" = some (.array kids))
    (hnc : (dictGet pd "Count").bind Object.asI64 = none) :
    ∃ merged', Merger.add_pages_to_tree merged ids = Except.ok merged' ∧
      docCount merged' = some (ids.length : Int) ∧
      kidsList merged' = some (kids ++ ids.map Object.reference) ∧
      (∃ d', Merger.add_pages_to_tree noCountDoc [(4, 0)] = Except.ok d' ∧
        ¬ countMatchesKids d') := by
  have hchain : PageChain merged rid pid cat pd kids := ⟨hroot, hcat, href, hpd, hkids⟩
  have heq := add_pages_to_tree_eq hchain ids
  obtain ⟨kids2, hk2, hk2', hc'⟩ := add_pages_result heq
  have hkeq : kids2 = kids := by
    have := chainData_of_chain hchain
    rw [kidsList, this] at hk2
    injection hk2 with h
    exact h.symm
  subst hkeq
  have hdc : docCount merged = none := by
    rw [docCount, chainData_of_chain hchain]
    exact hnc
  rw [hdc] at hc'
  refine ⟨_, heq, ?_, hk2', _, rfl, ?_⟩
  · rw [hc']
    congr 1
    show (0 : Int) + (ids.length : Int) = (ids.length : Int)
    omega
  · intro hcm
    obtain ⟨kidsc, hkc, hcc⟩ := hcm
    have h2 : (some 2 : Option Nat) = some kidsc.length :=
      congrArg (Option.map List.length) hkc
    have h1 : (some (1 : Int) : Option Int) = some ((kidsc.length : Nat) : Int) := hcc
    injection h2 with h2'
    injection h1 with h1'
    omega

/-- Witness for C10 at the concrete Count-less fixture. -/
theorem C10_missing_count_tolerated_witness :
    dictGet noCountDoc.trailer "Root" = some (.reference (1, 0)) ∧
    noCountDoc.getObject (1, 0) = some (.dictionary
      [("Type", .name "Catalog"), ("Pages", .reference (2, 0))]) ∧
    (dictGet [("Type", Object.name "Pages"),
      ("Kids", Object.array [.reference (3, 0)])] "Count").bind Object.asI64 = none ∧
    ∃ merged', Merger.add_pages_to_tree noCountDoc [(4, 0)] = Except.ok merged' ∧
      docCount merged' = some ((([((4 : Nat), (0 : Nat))] : List ObjectId)).length : Int) ∧
      kidsList merged' = some ([Object.reference (3, 0)] ++
        [((4 : Nat), (0 : Nat))].map Object.reference) ∧
      (∃ d', Merger.add_pages_to_tree noCountDoc [(4, 0)] = Except.ok d' ∧
        ¬ countMatchesKids d') := by
  refine ⟨rfl, rfl, rfl, ?_⟩
  obtain ⟨m, hm, ha, hb, hc⟩ := C10_missing_count_tolerated [(4, 0)]
    (show dictGet noCountDoc.trailer "Root" = some (.reference (1, 0)) from rfl)
    (show noCountDoc.getObject (1, 0) = some (.dictionary
      [("Type", .name "Catalog"), ("Pages", .reference (2, 0))]) from rfl)
    rfl rfl rfl rfl
  exact ⟨m, hm, ha, hb, hc⟩

/-- C8 (confirmed): for any document with a resolving catalog (stored
within the `max_id` watermark), a nonempty file list and at least one
page, adding bookmarks creates one outline item per collected entry
with Title, Parent referencing the single outline root and Dest equal
to `[pageRef, XYZ, null, null, null]`; the items are linked by
Prev/Next in input order into an acyclic doubly-linked chain over the
(pairwise distinct) fresh item identifiers; the root's Count is the
item count and First/Last reference the chain's ends; and the
catalog's Outlines entry references the root. -/
theorem C8_outline_structure {doc : Document} {rid : ObjectId} {cat : Dict}
    (hroot : dictGet doc.trailer "Root" = some (.reference rid))
    (hcat : doc.getObject rid = some (.dictionary cat))
    (hbound : rid.1 ≤ doc.maxId)
    (paths : List String) (hpne : paths ≠ []) (hpg : doc.pageIds ≠ []) :
    ∃ doc' items,
      items = collectOutlineItems doc.pageIds
        (if paths.length > 1 then doc.pageIds.length / paths.length
         else doc.pageIds.length) 0 paths ∧
      0 < items.length ∧
      BookmarkManager.add_bookmarks_for_files doc paths = Except.ok doc' ∧
      OutlineStructureOk doc doc' items := by
  match paths, hpne with
  | p :: rest, _ =>
    set ppf := if (p :: rest).length > 1 then doc.pageIds.length / (p :: rest).length
      else doc.pageIds.length with hppf
    set items := collectOutlineItems doc.pageIds ppf 0 (p :: rest) with hitemsdef
    have hne : items ≠ [] := @collectOutlineItems_ne_nil doc.pageIds ppf p rest hpg
    obtain ⟨doc', hok, hitems, hrootd, hcatEq, htr'⟩ :=
      create_outline_structure_spec hne hroot hcat hbound
    refine ⟨doc', items, rfl, List.length_pos.mpr hne, ?_, ?_⟩
    · rw [add_bookmarks_eq_create (by simp) hpg]
      exact hok
    · set n := items.length with hn
      set oid : ObjectId := (doc.maxId + 1, 0) with hoid
      set ids := (List.range n).map
        (fun i => ((doc.maxId + 2 + i, 0) : ObjectId)) with hids
      have hlen : ids.length = n := by
        rw [hids]
        simp
      refine ⟨?_, ?_, ?_, ?_⟩
      · intro i j hi hj he
        have := congrArg Prod.fst he
        simp at this
        omega
      · intro j hj
        refine ⟨_, hitems j hj, ?_, ?_, ?_, ?_, ?_, ?_, ?_⟩
        · rw [linkedDict_get_other _ _ _ _ (by decide) (by decide)]
          rfl
        · rw [linkedDict_get_other _ _ _ _ (by decide) (by decide)]
          rfl
        · rw [linkedDict_get_other _ _ _ _ (by decide) (by decide)]
          rfl
        · intro h0
          subst h0
          rw [linkedDict_get_prev, if_neg (by omega)]
          rfl
        · intro hp0
          rw [linkedDict_get_prev, if_pos hp0, hids, getD_range_map,
            if_pos (show j - 1 < n by omega)]
        · intro hje
          rw [linkedDict_get_next, if_neg (show ¬ j < ids.length - 1 by
            rw [hlen]; omega)]
          rfl
        · intro hjl
          rw [linkedDict_get_next, if_pos (show j < ids.length - 1 by
            rw [hlen]; omega), hids, getD_range_map,
            if_pos (show j + 1 < n by omega)]
      · exact ⟨_, hrootd, rfl, rfl, rfl⟩
      · refine ⟨dictSet cat "Outlines" (.reference oid), ?_,
          dictGet_dictSet_self _ _ _⟩
        unfold Document.catalogDict Document.rootId
        rw [htr']
        show (match doc'.getObject rid with
          | some (.dictionary d) => some d
          | _ => none) = _
        rw [hcatEq]

/-- Witness for C8 at a 2-page fixture with two file paths. -/
theorem C8_outline_structure_witness :
    dictGet (sampleDoc 2).trailer "Root" = some (.reference (1, 0)) ∧
    (["x.pdf", "y.pdf"] : List String) ≠ [] ∧ (sampleDoc 2).pageIds ≠ [] ∧
    ∃ doc' items,
      items = collectOutlineItems (sampleDoc 2).pageIds
        (if (["x.pdf", "y.pdf"] : List String).length > 1 then
          (sampleDoc 2).pageIds.length / (["x.pdf", "y.pdf"] : List String).length
         else (sampleDoc 2).pageIds.length) 0 ["x.pdf", "y.pdf"] ∧
      0 < items.length ∧
      BookmarkManager.add_bookmarks_for_files (sampleDoc 2) ["x.pdf", "y.pdf"] =
        Except.ok doc' ∧
      OutlineStructureOk (sampleDoc 2) doc' items := by
  refine ⟨rfl, by simp, by decide, ?_⟩
  exact @C8_outline_structure (sampleDoc 2) (1, 0)
    [("Type", Object.name "Catalog"), ("Pages", Object.reference (2, 0))]
    rfl rfl (by decide) ["x.pdf", "y.pdf"] (by simp) (by decide)

/-- C9 counterexample: three one-bookmark sources over a 6-page
document give `pages_per_file = 2`, so the third source's bookmark
(item `(12,0)`, file index 2) targets the page at index `2 * 2 = 4`,
namely `(7,0)`, and not the page at index `floor(6 / 3) = 2`, which
is `(5,0)`: "each subsequent source's bookmark destination is the
page at index floor(p / n)" fails from the third source on. -/
theorem C9_counterexample_third_source :
    ∃ doc', BookmarkManager.add_bookmarks_for_files (sampleDoc 6)
        ["a.pdf", "b.pdf", "c.pdf"] = Except.ok doc' ∧
      (sampleDoc 6).pageIds.length = 6 ∧
      (6 : Nat) / 3 = 2 ∧
      objDictGet doc' (12, 0) "Dest" =
        some (.array [.reference (7, 0), .name "XYZ", .null, .null, .null]) ∧
      (sampleDoc 6).pageIds.getD 2 (0, 0) = (5, 0) ∧
      ((7, 0) : ObjectId) ≠ ((5, 0) : ObjectId) :=
  ⟨_, rfl, rfl, rfl, rfl, rfl, by decide⟩

/-- C9 (amended): the bookmark for file index `j` targets the page at
index `j * pages_per_file` (so only the second source lands at
`floor(p / n)` in general); the first source's bookmark always
targets the document's first page; and the two-single-page-source
scenario holds: merging two one-page documents with bookmarks enabled
yields 2 pages and an outline of 2 items whose destinations are, in
order, the first source's page and the second source's page. -/
theorem C9_bookmark_distribution :
    (∀ (pages : List ObjectId) (ppf : Nat) (paths : List String) (j : Nat),
      j < (collectOutlineItems pages ppf 0 paths).length →
      ((collectOutlineItems pages ppf 0 paths).getD j ("", (0, 0))).2 =
        pages.getD (j * ppf) (0, 0) ∧ j * ppf < pages.length) ∧
    (∀ (pages : List ObjectId) (ppf : Nat) (paths : List String),
      0 < (collectOutlineItems pages ppf 0 paths).length →
      ((collectOutlineItems pages ppf 0 paths).getD 0 ("", (0, 0))).2 =
        pages.getD 0 (0, 0)) ∧
    (∃ res, Merger.merge
        [Except.ok (sampleLoaded 1 "a.pdf"), Except.ok (sampleLoaded 1 "b.pdf")]
        bmConfig "D:20240101000000Z" = Except.ok res ∧
      res.statistics.total_pages = 2 ∧
      res.document.pageIds = [(3, 0), (6, 0)] ∧
      objDictGet res.document (4, 0) "Count" = some (.integer 2) ∧
      objDictGet res.document (4, 0) "First" = some (.reference (5, 0)) ∧
      objDictGet res.document (4, 0) "Last" = some (.reference (6, 0)) ∧
      objDictGet res.document (5, 0) "Dest" =
        some (.array [.reference (3, 0), .name "XYZ", .null, .null, .null]) ∧
      objDictGet res.document (5, 0) "Next" = some (.reference (6, 0)) ∧
      objDictGet res.document (6, 0) "Dest" =
        some (.array [.reference (6, 0), .name "XYZ", .null, .null, .null]) ∧
      objDictGet res.document (6, 0) "Prev" = some (.reference (5, 0)) ∧
      (∃ cat', res.document.catalogDict = some cat' ∧
        dictGet cat' "Outlines" = some (.reference (4, 0)))) := by
  refine ⟨?_, ?_, ?_⟩
  · intro pages ppf paths j hj
    obtain ⟨h1, h2⟩ := collectOutlineItems_getD pages ppf paths 0 j hj
    rw [Nat.zero_add] at h1 h2
    exact ⟨by rw [h1], h2⟩
  · intro pages ppf paths h0
    obtain ⟨h1, _⟩ := collectOutlineItems_getD pages ppf paths 0 0 h0
    rw [Nat.zero_add, Nat.zero_mul] at h1
    rw [h1]
  · exact ⟨_, rfl, rfl, rfl, rfl, rfl, rfl, rfl, rfl, rfl, rfl, _, rfl, rfl⟩

/-- Witness for C9 applying the index formula to the third file over
the 6-page fixture. -/
theorem C9_bookmark_distribution_witness :
    2 < (collectOutlineItems (sampleDoc 6).pageIds 2 0
      ["a.pdf", "b.pdf", "c.pdf"]).length ∧
    ((collectOutlineItems (sampleDoc 6).pageIds 2 0
        ["a.pdf", "b.pdf", "c.pdf"]).getD 2 ("", (0, 0))).2 =
      (sampleDoc 6).pageIds.getD (2 * 2) (0, 0) ∧
    2 * 2 < (sampleDoc 6).pageIds.length := by
  refine ⟨by decide, ?_, ?_⟩
  · exact (C9_bookmark_distribution.1 (sampleDoc 6).pageIds 2
      ["a.pdf", "b.pdf", "c.pdf"] 2 (by decide)).1
  · exact (C9_bookmark_distribution.1 (sampleDoc 6).pageIds 2
      ["a.pdf", "b.pdf", "c.pdf"] 2 (by decide)).2

end Pdfcat
